import Mathlib

/-!
# Portfolio scripts (`src/script.js`): a shallow embedding

JavaScript numbers are embedded as rationals.  Arithmetic is exact, except in
the connection pass, where every operation is rounded to the nearest double
(`round64`) because the threshold test and the alpha depend on the rounding;
`canvas.width` and `canvas.height` are unsigned integers in the DOM and are
embedded as naturals.  `Math.random` is a stream `rnd : Nat → ℚ`
read through a counter of the draws made so far, and `Math.sqrt` is a parameter
`sqrt : ℚ → ℚ`, specified by `IsRoundedSqrt` where a theorem needs it.  The page state that the handlers read and write (attributes,
storage, styles, the animation calls made) is passed explicitly.
-/

namespace Portfolio

/-! ## Particle system (script.js 57-140) -/

/-- The drawing surface: `canvas.width`, `canvas.height`. -/
structure Canvas where
  width : Nat
  height : Nat
deriving DecidableEq

/-- The fields of `class Particle` (script.js 70-78). -/
structure Particle where
  x : ℚ
  y : ℚ
  size : ℚ
  speedX : ℚ
  speedY : ℚ
  opacity : ℚ
deriving DecidableEq

/-- The `constructor()` of `Particle` (script.js 71-78): six draws of
`Math.random`, the `k`-th to `k+5`-th of the stream, in source order. -/
def Particle.new (canvas : Canvas) (rnd : Nat → ℚ) (k : Nat) : Particle :=
  { x := rnd k * (canvas.width : ℚ)
    y := rnd (k + 1) * (canvas.height : ℚ)
    size := rnd (k + 2) * 2 + 1 / 2
    speedX := rnd (k + 3) * (1 / 2) - 1 / 4
    speedY := rnd (k + 4) * (1 / 2) - 1 / 4
    opacity := rnd (k + 5) * (1 / 2) + 1 / 5 }

/-- The method `update()` (script.js 80-88): the position advances by the
velocity, then the four tests run one after the other, each on the value the
previous one left. -/
def Particle.update (canvas : Canvas) (p : Particle) : Particle :=
  let x := p.x + p.speedX
  let y := p.y + p.speedY
  let x := if x > (canvas.width : ℚ) then 0 else x
  let x := if x < 0 then (canvas.width : ℚ) else x
  let y := if y > (canvas.height : ℚ) then 0 else y
  let y := if y < 0 then (canvas.height : ℚ) else y
  { p with x := x, y := y }

/-- The state of the particle system: the canvas, the global `particles`, and
the number of `Math.random` draws made so far. -/
structure Field where
  canvas : Canvas
  particles : List Particle
  draws : Nat
deriving DecidableEq

/-- The function `resizeCanvas` (script.js 62-65), given `window.innerWidth`
and `window.innerHeight`; it is also the whole `resize` listener
(script.js 68). -/
def resizeCanvas (innerWidth innerHeight : Nat) (f : Field) : Field :=
  { f with canvas := { width := innerWidth, height := innerHeight } }

/-- One turn of the `for` loop of `initParticles` (script.js 104):
`particles.push(new Particle())`. -/
def pushParticle (rnd : Nat → ℚ) (f : Field) : Field :=
  { f with
    particles := f.particles ++ [Particle.new f.canvas rnd f.draws]
    draws := f.draws + 6 }

/-- The function `initParticles` (script.js 100-106). -/
def initParticles (rnd : Nat → ℚ) (f : Field) : Field :=
  let particleCount := (f.canvas.width * f.canvas.height) / 15000
  (List.range particleCount).foldl (fun g _ => pushParticle rnd g) { f with particles := [] }

/-- The start of the script for the particle system (script.js 60, 67, 139):
`particles = []`, `resizeCanvas()`, `initParticles()`. -/
def startField (innerWidth innerHeight : Nat) (rnd : Nat → ℚ) : Field :=
  initParticles rnd
    (resizeCanvas innerWidth innerHeight
      { canvas := { width := 0, height := 0 }, particles := [], draws := 0 })

/-- The position of a particle lies in the half-open box `[0, W) × [0, H)`. -/
def Particle.insideHalfOpen (canvas : Canvas) (p : Particle) : Prop :=
  0 ≤ p.x ∧ p.x < (canvas.width : ℚ) ∧ 0 ≤ p.y ∧ p.y < (canvas.height : ℚ)

/-- The position of a particle lies in the closed box `[0, W] × [0, H]`. -/
def Particle.insideClosed (canvas : Canvas) (p : Particle) : Prop :=
  0 ≤ p.x ∧ p.x ≤ (canvas.width : ℚ) ∧ 0 ≤ p.y ∧ p.y ≤ (canvas.height : ℚ)

instance (canvas : Canvas) (p : Particle) : Decidable (p.insideHalfOpen canvas) := by
  unfold Particle.insideHalfOpen; infer_instance

instance (canvas : Canvas) (p : Particle) : Decidable (p.insideClosed canvas) := by
  unfold Particle.insideClosed; infer_instance

/-- A velocity as the constructor draws it: both components in `[-0.25, 0.25]`. -/
def Particle.slow (p : Particle) : Prop :=
  -(1 / 4 : ℚ) ≤ p.speedX ∧ p.speedX ≤ 1 / 4 ∧ -(1 / 4 : ℚ) ≤ p.speedY ∧ p.speedY ≤ 1 / 4

instance (p : Particle) : Decidable p.slow := by
  unfold Particle.slow; infer_instance

/-- The colour chosen in `draw()` and in the connection pass (script.js 91-92,
124-125): `theme === 'light' ? '0, 0, 0' : '255, 255, 255'`. -/
def particleColor (theme : String) : String :=
  if theme = "light" then "0, 0, 0" else "255, 255, 255"

/-- The canvas calls a frame makes; a style `rgba(color, alpha)` is kept as the
pair of its colour and its alpha. -/
inductive DrawCmd where
  | clearRect (w h : Nat)
  | fillArc (color : String) (alpha x y r : ℚ)
  | strokeLine (color : String) (alpha x1 y1 x2 y2 : ℚ)
deriving DecidableEq

/-- The method `draw()` (script.js 90-97), given the `data-theme` attribute. -/
def Particle.draw (theme : String) (p : Particle) : DrawCmd :=
  DrawCmd.fillArc (particleColor theme) p.opacity p.x p.y p.size

/-! ## Double arithmetic in the connection pass

The threshold test and the alpha of the connection pass depend on the
rounding of each operation, so there every operation is rounded to the nearest
double (IEEE 754 binary64, ties to even, subnormals included).  A result beyond
the largest double would be an infinity; that is not modelled, and cannot
arise from positions on a canvas. -/

/-- The binary exponent of the doubles around `x`: the floor of `log₂ |x|`, and
`-1022` for the subnormal range. -/
def binade (x : ℚ) : ℤ := max (Int.log 2 |x|) (-1022)

/-- The spacing of the doubles around `x`: 52 fraction bits below the
exponent. -/
def ulp (x : ℚ) : ℚ := (2 : ℚ) ^ (binade x - 52)

/-- The nearest integer, a tie going to the even one. -/
def roundHalfEven (q : ℚ) : ℤ :=
  if q - ⌊q⌋ < 1 / 2 then ⌊q⌋
  else if 1 / 2 < q - ⌊q⌋ then ⌊q⌋ + 1
  else if ⌊q⌋ % 2 = 0 then ⌊q⌋ else ⌊q⌋ + 1

/-- The double nearest to a non-negative `a`. -/
def roundMagnitude (a : ℚ) : ℚ := (roundHalfEven (a / ulp a) : ℚ) * ulp a

/-- The double nearest to `x`: the value a JavaScript operation returns when
its exact result is `x`. -/
def round64 (x : ℚ) : ℚ := if 0 ≤ x then roundMagnitude x else -roundMagnitude (-x)

/-- The argument of `Math.sqrt` in the connection pass (script.js 119-121):
`dx * dx + dy * dy` with `dx = p1.x - p2.x` and `dy = p1.y - p2.y`, each
operation rounded. -/
def pairSquare (p1 p2 : Particle) : ℚ :=
  let dx := round64 (p1.x - p2.x)
  let dy := round64 (p1.y - p2.y)
  round64 (round64 (dx * dx) + round64 (dy * dy))

/-- The `distance` of the connection pass (script.js 121):
`Math.sqrt(dx * dx + dy * dy)`. -/
def pairDistance (sqrt : ℚ → ℚ) (p1 p2 : Particle) : ℚ :=
  sqrt (pairSquare p1 p2)

/-- The stroke alpha of the connection pass (script.js 126), as a function of
the distance: `0.1 * (1 - distance / 100)`, the literal `0.1` and each
operation rounded. -/
def connectorAlpha (distance : ℚ) : ℚ :=
  round64 (round64 (1 / 10) * round64 (1 - round64 (distance / 100)))

/-- The body of the inner `forEach` (script.js 119-132): the stroke alpha of the
line drawn between `p1` and `p2`, or `none` when no line is drawn. -/
def connect (sqrt : ℚ → ℚ) (p1 p2 : Particle) : Option ℚ :=
  let distance := pairDistance sqrt p1 p2
  if distance < 100 then some (connectorAlpha distance) else none

/-- What `Math.sqrt` returns at `s`: `y` is a non-negative double nearest to
the square root of `s`, that is, the square root lies on the side of `y` of the
midpoint between `y` and any other non-negative double `z`. -/
def IsRoundedSqrt (s y : ℚ) : Prop :=
  0 ≤ y ∧ round64 y = y ∧
    ∀ z : ℚ, 0 ≤ z → round64 z = z →
      (z < y → ((z + y) / 2) ^ 2 ≤ s) ∧ (y < z → s ≤ ((z + y) / 2) ^ 2)

/-- One run of the body of the inner `forEach`: the indices in `particles` of
the two particles (the inner one is element `k` of `particles.slice(i + 1)`,
that is index `i + 1 + k`), the two particles, and the alpha of the line drawn,
if any. -/
structure PairCheck where
  i : Nat
  j : Nat
  p1 : Particle
  p2 : Particle
  alpha : Option ℚ
deriving DecidableEq

/-- The connection pass of `animateParticles` (script.js 117-134): the outer
`forEach((p1, i) => ...)` over `particles`, the inner `forEach` over
`particles.slice(i + 1)`; one `PairCheck` for each run of the inner body, in
order. -/
def connectionPass (sqrt : ℚ → ℚ) (particles : List Particle) : List PairCheck :=
  particles.enum.flatMap fun ip =>
    (particles.drop (ip.1 + 1)).enum.map fun kq =>
      { i := ip.1, j := ip.1 + 1 + kq.1, p1 := ip.2, p2 := kq.2,
        alpha := connect sqrt ip.2 kq.2 }

/-- The line a `PairCheck` draws, if it draws one (script.js 124-131). -/
def PairCheck.line (theme : String) (c : PairCheck) : Option DrawCmd :=
  c.alpha.map fun a => DrawCmd.strokeLine (particleColor theme) a c.p1.x c.p1.y c.p2.x c.p2.y

/-- One run of `animateParticles` (script.js 108-137), given the `data-theme`
attribute during the frame: the particles after their `update()`, and the
canvas calls made, in order.  The call of `requestAnimationFrame` at the end
makes the next display refresh run it again. -/
def animateParticles (sqrt : ℚ → ℚ) (theme : String) (f : Field) : Field × List DrawCmd :=
  let moved := f.particles.map (Particle.update f.canvas)
  ({ f with particles := moved },
   DrawCmd.clearRect f.canvas.width f.canvas.height
     :: (moved.map (Particle.draw theme)
          ++ (connectionPass sqrt moved).filterMap (PairCheck.line theme)))

/-- The pairs of indices the connection pass examines, in order. -/
def examinedPairs (sqrt : ℚ → ℚ) (particles : List Particle) : List (Nat × Nat) :=
  (connectionPass sqrt particles).map fun c => (c.i, c.j)

/-! ## Calls of the animation library -/

/-- The `targets` of a call of `anime`. -/
inductive Target where
  | selector (s : String)
  | element (id : Nat)
  | particles
deriving DecidableEq

/-- The `delay` of a call of `anime`: a number of milliseconds (`none` for
`NaN`), or `anime.stagger(step, start)`. -/
inductive Delay where
  | fixed (ms : Option Int)
  | stagger (step start : Nat)
deriving DecidableEq

/-- One call of `anime(...)`: its targets, the animated properties with their
values (`none` for a value that is not a finite number), the duration, the
delay and the easing. -/
structure AnimeCall where
  targets : Target
  props : List (String × List (Option ℚ))
  duration : Nat
  delay : Delay
  easing : String
deriving DecidableEq

/-- A JavaScript division whose result is used as a number: `none` when the
divisor is zero (the result is then `NaN` or an infinity). -/
def jsDiv (a b : ℚ) : Option ℚ :=
  if b = 0 then none else some (a / b)

/-! ## Theme (script.js 8-55) and scroll handlers (script.js 206-217, 563-592) -/

/-- The constant `currentTheme` (script.js 13):
`localStorage.getItem('theme') || 'dark'`, given the stored value (`none` for
`null`).  The empty string is the one string that is falsy. -/
def currentTheme (persisted : Option String) : String :=
  match persisted with
  | none => "dark"
  | some v => if v = "" then "dark" else v

/-- The nav background the script sets at its start (script.js 19). -/
def initialNavBackground (theme : String) : String :=
  if theme = "light" then "rgba(255, 255, 255, 0.8)" else "rgba(10, 10, 10, 0.8)"

/-- The nav background chosen from the theme and the scroll offset
(script.js 32-36 and 581-585, the same text twice). -/
def navBackgroundFor (theme : String) (scrolled : ℚ) : String :=
  if scrolled > 100 then
    (if theme = "light" then "rgba(255, 255, 255, 0.95)" else "rgba(10, 10, 10, 0.95)")
  else
    (if theme = "light" then "rgba(255, 255, 255, 0.8)" else "rgba(10, 10, 10, 0.8)")

/-- The page state the theme and scroll handlers read and write.  The elements
`.nav` and `.theme-toggle` are taken to exist.  `heroStyle` is the pair of the
`translateY` (in px) and the `opacity` the script has written on
`.hero-content`, `none` while it has written none.  The last two fields are
bookkeeping: the callbacks passed to `requestAnimationFrame` by the parallax
listener and not yet run, and the number of times that callback has run. -/
structure Page where
  dataTheme : String
  storedTheme : Option String
  navBackground : String
  hasHero : Bool
  heroStyle : Option (ℚ × Option ℚ)
  pageYOffset : ℚ
  innerHeight : ℚ
  scrollHeight : ℚ
  clientHeight : ℚ
  ticking : Bool
  animeCalls : List AnimeCall
  frameQueue : Nat
  recomputes : Nat
deriving DecidableEq

/-- The page after the top-level statements of the script (script.js 13-20,
564), given the stored theme and the geometry of the page. -/
def Page.start (persisted : Option String) (hasHero : Bool)
    (innerHeight scrollHeight clientHeight : ℚ) : Page :=
  { dataTheme := currentTheme persisted
    storedTheme := persisted
    navBackground := initialNavBackground (currentTheme persisted)
    hasHero := hasHero
    heroStyle := none
    pageYOffset := 0
    innerHeight := innerHeight
    scrollHeight := scrollHeight
    clientHeight := clientHeight
    ticking := false
    animeCalls := []
    frameQueue := 0
    recomputes := 0 }

/-- The theme the click listener switches to (script.js 24). -/
def newTheme (theme : String) : String :=
  if theme = "dark" then "light" else "dark"

/-- The click listener of the theme toggle (script.js 22-55), given the global
`particles` at the time of the click.  The relative value `'+=360'` of `rotate`
is kept as the number 360. -/
def themeToggleClick (particles : List Particle) (s : Page) : Page :=
  let theme := s.dataTheme
  let next := newTheme theme
  let rotate : AnimeCall :=
    { targets := Target.selector ".theme-toggle", props := [("rotate", [some 360])],
      duration := 600, delay := Delay.fixed (some 0), easing := "easeOutExpo" }
  let flash : AnimeCall :=
    { targets := Target.particles,
      props := [("opacity", [some (1 / 2), some (1 / 5), some (1 / 2)])],
      duration := 1000, delay := Delay.fixed (some 0), easing := "easeInOutQuad" }
  { s with
    dataTheme := next
    storedTheme := some next
    navBackground := navBackgroundFor next s.pageYOffset
    animeCalls := s.animeCalls ++ rotate :: (if particles.length > 0 then [flash] else []) }

/-- The target `scaleX` of the progress listener (script.js 208-209):
`window.pageYOffset / (scrollHeight - clientHeight)`. -/
def progressScale (pageYOffset scrollHeight clientHeight : ℚ) : Option ℚ :=
  let windowHeight := scrollHeight - clientHeight
  jsDiv pageYOffset windowHeight

/-- The progress listener for `scroll` (script.js 207-217). -/
def progressScroll (s : Page) : Page :=
  let scrolled := progressScale s.pageYOffset s.scrollHeight s.clientHeight
  { s with
    animeCalls := s.animeCalls ++
      [{ targets := Target.selector ".progress-bar", props := [("scaleX", [scrolled])],
         duration := 100, delay := Delay.fixed (some 0), easing := "linear" }] }

/-- The callback the parallax listener passes to `requestAnimationFrame`
(script.js 568-588). -/
def recompute (s : Page) : Page :=
  let scrolled := s.pageYOffset
  let moved := s.hasHero && decide (scrolled < s.innerHeight)
  { s with
    heroStyle :=
      if moved then
        some (scrolled * (1 / 2), (jsDiv scrolled s.innerHeight).map (fun q => 1 - q * (4 / 5)))
      else s.heroStyle
    navBackground := navBackgroundFor s.dataTheme scrolled
    ticking := false
    recomputes := s.recomputes + 1 }

/-- The parallax listener for `scroll` (script.js 566-592). -/
def parallaxScroll (s : Page) : Page :=
  if !s.ticking then { s with frameQueue := s.frameQueue + 1, ticking := true } else s

/-- A display refresh: the callbacks queued by the parallax listener run, each
once, and the queue is empty again. -/
def frame (s : Page) : Page :=
  { (recompute^[s.frameQueue] s) with frameQueue := 0 }

/-- What happens to the page: a scroll to a new offset (the two `scroll`
listeners then run in the order they were added), a display refresh, a click
on the theme toggle. -/
inductive PageEvent where
  | scroll (offset : ℚ)
  | refresh
  | click (particles : List Particle)
deriving DecidableEq

/-- One event on the page. -/
def pageStep (s : Page) : PageEvent → Page
  | PageEvent.scroll offset => parallaxScroll (progressScroll { s with pageYOffset := offset })
  | PageEvent.refresh => frame s
  | PageEvent.click particles => themeToggleClick particles s

/-- A sequence of events on the page, in order. -/
def pageRun (s : Page) (events : List PageEvent) : Page :=
  events.foldl pageStep s

/-- The number of `scroll` events of a sequence. -/
def scrollCount (events : List PageEvent) : Nat :=
  events.countP fun e => match e with
    | PageEvent.scroll _ => true
    | _ => false

/-- The number of display refreshes of a sequence. -/
def refreshCount (events : List PageEvent) : Nat :=
  events.countP fun e => match e with
    | PageEvent.refresh => true
    | _ => false

/-- The calls of `anime` on the progress bar among the calls made. -/
def progressCalls (s : Page) : List AnimeCall :=
  s.animeCalls.filter fun c => decide (c.targets = Target.selector ".progress-bar")

/-! ## Scroll animations: the intersection observer (script.js 312-394) -/

/-- An element matched by `.section-header, .project, .about-content,
.contact-content` (script.js 392): its identity, the four class tests the
callback makes, and `parseInt(target.dataset.index)` (`none` for `NaN`). -/
structure Region where
  id : Nat
  sectionHeader : Bool
  project : Bool
  aboutContent : Bool
  contactContent : Bool
  dataIndex : Option Int
deriving DecidableEq

/-- An `IntersectionObserverEntry`, as far as the callback reads it. -/
structure Entry where
  target : Region
  isIntersecting : Bool
deriving DecidableEq

/-- The observer: the elements it observes, the calls of `anime` its callback
has made, and, as bookkeeping, the target of every run of the entrance block
(the body of `if (entry.isIntersecting)`), one item for each run. -/
structure Observer where
  observed : List Region
  animeCalls : List AnimeCall
  revealed : List Region
deriving DecidableEq

/-- The calls of `anime` of one run of the entrance block (script.js 323-384). -/
def entranceCalls (target : Region) : List AnimeCall :=
  (if target.sectionHeader then
    [{ targets := Target.element target.id,
       props := [("opacity", [some 0, some 1]), ("translateY", [some 50, some 0])],
       duration := 1000, delay := Delay.fixed (some 0), easing := "easeOutExpo" }]
   else [])
  ++ (if target.project then
    [{ targets := Target.element target.id,
       props := [("opacity", [some 0, some 1]), ("translateY", [some 50, some 0])],
       duration := 1000, delay := Delay.fixed (target.dataIndex.map (fun n => n * 100)),
       easing := "easeOutExpo" }]
   else [])
  ++ (if target.aboutContent then
    [{ targets := Target.selector ".about-lead",
       props := [("opacity", [some 0, some 1]), ("translateY", [some 50, some 0])],
       duration := 1000, delay := Delay.fixed (some 0), easing := "easeOutExpo" },
     { targets := Target.selector ".about-card",
       props := [("opacity", [some 0, some 1]), ("translateY", [some 60, some 0]),
                 ("scale", [some (19 / 20), some 1])],
       duration := 1000, delay := Delay.stagger 150 400, easing := "easeOutExpo" }]
   else [])
  ++ (if target.contactContent then
    [{ targets := Target.element target.id,
       props := [("opacity", [some 0, some 1]), ("translateY", [some 50, some 0])],
       duration := 1000, delay := Delay.fixed (some 0), easing := "easeOutExpo" },
     { targets := Target.selector ".contact-link",
       props := [("opacity", [some 0, some 1]), ("translateX", [some (-50), some 0])],
       duration := 800, delay := Delay.stagger 150 300, easing := "easeOutExpo" }]
   else [])

/-- The method `observer.unobserve(target)`. -/
def Observer.unobserve (o : Observer) (target : Region) : Observer :=
  { o with observed := o.observed.filter fun r => decide (r ≠ target) }

/-- The body of `entries.forEach` in the callback (script.js 319-388). -/
def handleEntry (o : Observer) (entry : Entry) : Observer :=
  if entry.isIntersecting then
    Observer.unobserve
      { o with
        animeCalls := o.animeCalls ++ entranceCalls entry.target
        revealed := o.revealed ++ [entry.target] }
      entry.target
  else o

/-- The callback of the observer (script.js 318-389), on one batch of entries. -/
def observerCallback (o : Observer) (entries : List Entry) : Observer :=
  entries.foldl handleEntry o

/-- The observer after the script has called `observe` on each matched element
(script.js 392-394). -/
def Observer.start (regions : List Region) : Observer :=
  { observed := regions, animeCalls := [], revealed := [] }

/-- A sequence of callbacks, one batch of entries each, in order. -/
def observerRun (o : Observer) (batches : List (List Entry)) : Observer :=
  batches.foldl observerCallback o

/-- The entries of a batch are reported by the observer: each entry is about an
element the observer still observes when the callback comes to it (an element
that has been unobserved is reported no more). -/
def Reported (o : Observer) : List Entry → Prop
  | [] => True
  | entry :: rest => entry.target ∈ o.observed ∧ Reported (handleEntry o entry) rest

instance Reported.decidable : (o : Observer) → (entries : List Entry) →
    Decidable (Reported o entries)
  | _, [] => isTrue trivial
  | o, entry :: rest =>
    have := Reported.decidable (handleEntry o entry) rest
    inferInstanceAs (Decidable (entry.target ∈ o.observed ∧ Reported (handleEntry o entry) rest))

/-- Every batch of a sequence of callbacks is reported by the observer. -/
def ReportedAll (o : Observer) : List (List Entry) → Prop
  | [] => True
  | batch :: rest => Reported o batch ∧ ReportedAll (observerCallback o batch) rest

instance ReportedAll.decidable : (o : Observer) → (batches : List (List Entry)) →
    Decidable (ReportedAll o batches)
  | _, [] => isTrue trivial
  | o, batch :: rest =>
    have := ReportedAll.decidable (observerCallback o batch) rest
    inferInstanceAs (Decidable (Reported o batch ∧ ReportedAll (observerCallback o batch) rest))

/-- The pending flag agrees with the queue of the parallax listener: `ticking`
is set exactly when one callback is queued, and never more than one is. -/
def Page.throttled (s : Page) : Prop :=
  (s.ticking = true ∧ s.frameQueue = 1) ∨ (s.ticking = false ∧ s.frameQueue = 0)

/-- No element was revealed twice, no revealed element is still observed, and
the calls of `anime` made are those of the entrance blocks run. -/
def Observer.oneShot (o : Observer) : Prop :=
  o.revealed.Nodup ∧ (∀ r ∈ o.revealed, r ∉ o.observed)
    ∧ o.animeCalls = o.revealed.flatMap entranceCalls

/-- The browser's side of the observer for one visibility change: the change
reaches the callback, as a batch of that one entry, only while the observer
observes the element; a change of an element that has been unobserved is not
reported. -/
def observerStep (o : Observer) (entry : Entry) : Observer :=
  if entry.target ∈ o.observed then observerCallback o [entry] else o

/-- A sequence of visibility changes, in order, each one reported or not as
`observerStep` says. -/
def observerTrace (o : Observer) (changes : List Entry) : Observer :=
  changes.foldl observerStep o

/-! ## Theorems -/

/-! ### Particle system -/

theorem update_x_range (canvas : Canvas) (p : Particle) :
    0 ≤ (p.update canvas).x ∧ (p.update canvas).x ≤ (canvas.width : ℚ) := by
  have hW : (0 : ℚ) ≤ (canvas.width : ℚ) := Nat.cast_nonneg _
  simp only [Particle.update]
  split_ifs <;> constructor <;> linarith

theorem update_y_range (canvas : Canvas) (p : Particle) :
    0 ≤ (p.update canvas).y ∧ (p.update canvas).y ≤ (canvas.height : ℚ) := by
  have hH : (0 : ℚ) ≤ (canvas.height : ℚ) := Nat.cast_nonneg _
  simp only [Particle.update]
  split_ifs <;> constructor <;> linarith

/-- One `update()` puts the position in the closed box, wherever it was and
whatever the velocity. -/
theorem update_insideClosed (canvas : Canvas) (p : Particle) :
    (p.update canvas).insideClosed canvas :=
  ⟨(update_x_range canvas p).1, (update_x_range canvas p).2,
   (update_y_range canvas p).1, (update_y_range canvas p).2⟩

/-- C1, as amended: for every canvas and every particle whose position starts
in the closed box `[0, W] × [0, H]` (in particular inside the surface), with any
velocity, after any number of `update()` steps the position is in the closed
box `[0, W] × [0, H]`. -/
theorem update_keeps_closed_box (canvas : Canvas) (p : Particle)
    (h : p.insideClosed canvas) (n : Nat) :
    ((Particle.update canvas)^[n] p).insideClosed canvas := by
  cases n with
  | zero => simpa using h
  | succ k =>
    rw [Function.iterate_succ_apply']
    exact update_insideClosed canvas _

/-- C1, an instance of the amended claim: on a 10 by 10 canvas, a particle at
`(0.1, 5)` moving left at `0.25` is in the closed box after three steps. -/
theorem update_keeps_closed_box_witness :
    Particle.insideClosed ⟨10, 10⟩ ⟨1 / 10, 5, 1, -(1 / 4), 0, 1 / 2⟩
    ∧ Particle.insideClosed ⟨10, 10⟩
        ((Particle.update ⟨10, 10⟩)^[3] ⟨1 / 10, 5, 1, -(1 / 4), 0, 1 / 2⟩) :=
  ⟨by norm_num [Particle.insideClosed],
   update_keeps_closed_box ⟨10, 10⟩ ⟨1 / 10, 5, 1, -(1 / 4), 0, 1 / 2⟩
     (by norm_num [Particle.insideClosed]) 3⟩

/-- C1, as stated, fails: on a 10 by 10 canvas, a particle at `(0.1, 5)` with
velocity `(-0.25, 0)` starts inside the half-open box, and one `update()` takes
it to `x = -0.15 < 0`, which the second test replaces by `x = 10 = W`: the
position is not in `[0, W)`. -/
theorem update_leaves_half_open_box :
    Particle.insideHalfOpen ⟨10, 10⟩ ⟨1 / 10, 5, 1, -(1 / 4), 0, 1 / 2⟩
    ∧ Particle.slow ⟨1 / 10, 5, 1, -(1 / 4), 0, 1 / 2⟩
    ∧ ((Particle.update ⟨10, 10⟩)^[1] ⟨1 / 10, 5, 1, -(1 / 4), 0, 1 / 2⟩).x = 10
    ∧ ¬ Particle.insideHalfOpen ⟨10, 10⟩
        ((Particle.update ⟨10, 10⟩)^[1] ⟨1 / 10, 5, 1, -(1 / 4), 0, 1 / 2⟩) := by
  norm_num [Particle.insideHalfOpen, Particle.slow, Particle.update]

/-- The loop of `initParticles` after `n` turns: `n` new particles behind the
ones there were, the canvas as it was, six draws for each particle. -/
theorem pushLoop_particles (rnd : Nat → ℚ) (n : Nat) (f : Field) :
    ((List.range n).foldl (fun g _ => pushParticle rnd g) f).particles
        = f.particles ++ (List.range n).map (fun i => Particle.new f.canvas rnd (f.draws + 6 * i))
      ∧ ((List.range n).foldl (fun g _ => pushParticle rnd g) f).canvas = f.canvas
      ∧ ((List.range n).foldl (fun g _ => pushParticle rnd g) f).draws = f.draws + 6 * n := by
  induction n with
  | zero => simp
  | succ k ih =>
    rw [List.range_succ, List.foldl_append]
    obtain ⟨h1, h2, h3⟩ := ih
    simp only [List.foldl_cons, List.foldl_nil]
    generalize List.foldl (fun g _ => pushParticle rnd g) f (List.range k) = g at h1 h2 h3
    simp only [pushParticle, h1, h2, h3, List.map_append, List.map_cons, List.map_nil,
      List.append_assoc]
    exact ⟨trivial, trivial, by ring⟩

/-- The particles `initParticles` leaves are new ones only, as many as the count
it computes. -/
theorem initParticles_spec (rnd : Nat → ℚ) (f : Field) :
    (initParticles rnd f).particles
      = (List.range (f.canvas.width * f.canvas.height / 15000)).map
          (fun i => Particle.new f.canvas rnd (f.draws + 6 * i))
    ∧ (initParticles rnd f).canvas = f.canvas := by
  obtain ⟨h1, h2, -⟩ := pushLoop_particles rnd (f.canvas.width * f.canvas.height / 15000)
    { f with particles := [] }
  exact ⟨by simpa [initParticles] using h1, by simpa [initParticles] using h2⟩

theorem startField_particles (W H : Nat) (rnd : Nat → ℚ) :
    (startField W H rnd).particles
      = (List.range (W * H / 15000)).map (fun i => Particle.new ⟨W, H⟩ rnd (0 + 6 * i)) :=
  (initParticles_spec rnd ⟨⟨W, H⟩, [], 0⟩).1

/-- C3: for every canvas, whatever the collection was before, `initParticles`
leaves exactly `floor(W * H / 15000)` particles, all of them newly constructed
(none of the old ones is kept); for `W = 1500`, `H = 1000` that is 100. -/
theorem initParticles_count :
    (∀ (rnd : Nat → ℚ) (f : Field),
      (initParticles rnd f).particles.length = f.canvas.width * f.canvas.height / 15000
      ∧ (initParticles rnd f).particles
          = (List.range (f.canvas.width * f.canvas.height / 15000)).map
              (fun i => Particle.new f.canvas rnd (f.draws + 6 * i)))
    ∧ (∀ (rnd : Nat → ℚ) (old : List Particle) (draws : Nat),
      (initParticles rnd ⟨⟨1500, 1000⟩, old, draws⟩).particles.length = 100) := by
  refine ⟨fun rnd f => ⟨?_, (initParticles_spec rnd f).1⟩, fun rnd old draws => ?_⟩
  · rw [(initParticles_spec rnd f).1, List.length_map, List.length_range]
  · rw [(initParticles_spec rnd _).1, List.length_map, List.length_range]
    norm_num

/-- C2, as stated, fails: the script starts on a 300 by 200 viewport (4
particles, here all at `(270, 180)`), then the viewport is resized to 150 by
100.  After the `resize` listener the collection still has 4 particles, not
`floor(150 * 100 / 15000) = 1`, and a particle is outside the new bounds. -/
theorem resize_does_not_reinit :
    (resizeCanvas 150 100 (startField 300 200 (fun _ => 9 / 10))).particles.length = 4
    ∧ (resizeCanvas 150 100 (startField 300 200 (fun _ => 9 / 10))).particles.length
        ≠ 150 * 100 / 15000
    ∧ ∃ p ∈ (resizeCanvas 150 100 (startField 300 200 (fun _ => 9 / 10))).particles,
        ¬ p.insideHalfOpen (resizeCanvas 150 100 (startField 300 200 (fun _ => 9 / 10))).canvas
          ∧ ¬ p.insideClosed
              (resizeCanvas 150 100 (startField 300 200 (fun _ => 9 / 10))).canvas := by
  have h := startField_particles 300 200 (fun _ => 9 / 10)
  have h4 : 300 * 200 / 15000 = 4 := by norm_num
  rw [h4] at h
  refine ⟨?_, ?_, ?_⟩
  · simp only [resizeCanvas, h, List.length_map, List.length_range]
  · simp only [resizeCanvas, h, List.length_map, List.length_range]
    norm_num
  · refine ⟨Particle.new ⟨300, 200⟩ (fun _ => 9 / 10) (0 + 6 * 0), ?_, ?_⟩
    · simp only [resizeCanvas, h]
      exact List.mem_map.2 ⟨0, by simp, rfl⟩
    · norm_num [resizeCanvas, Particle.insideHalfOpen, Particle.insideClosed, Particle.new]

/-- C2, as amended: after a resize to `W` by `H` the canvas has the new
dimensions and the particle collection is the one from before, not a new one;
after the next frame the collection has the same length still and every
particle is in the closed box `[0, W] × [0, H]` of the new canvas. -/
theorem resize_keeps_particles (sqrt : ℚ → ℚ) (theme : String) (W H : Nat) (f : Field) :
    (resizeCanvas W H f).canvas = ⟨W, H⟩
    ∧ (resizeCanvas W H f).particles = f.particles
    ∧ (animateParticles sqrt theme (resizeCanvas W H f)).1.particles.length = f.particles.length
    ∧ ∀ p ∈ (animateParticles sqrt theme (resizeCanvas W H f)).1.particles,
        p.insideClosed ⟨W, H⟩ := by
  refine ⟨rfl, rfl, by simp [animateParticles, resizeCanvas], ?_⟩
  intro p hp
  simp only [animateParticles, resizeCanvas, List.mem_map] at hp
  obtain ⟨q, -, rfl⟩ := hp
  exact update_insideClosed _ q

/-! ### Rounding to doubles -/

theorem roundHalfEven_intCast (n : ℤ) : roundHalfEven (n : ℚ) = n := by
  simp [roundHalfEven]

theorem roundHalfEven_bounds (q : ℚ) :
    (⌊q⌋ ≤ roundHalfEven q ∧ roundHalfEven q ≤ ⌊q⌋ + 1)
    ∧ (q - ⌊q⌋ < 1 / 2 → roundHalfEven q = ⌊q⌋)
    ∧ (1 / 2 < q - ⌊q⌋ → roundHalfEven q = ⌊q⌋ + 1) := by
  unfold roundHalfEven
  refine ⟨?_, ?_, ?_⟩
  · split_ifs <;> constructor <;> omega
  · intro h; rw [if_pos h]
  · intro h
    have : ¬ q - ⌊q⌋ < 1 / 2 := not_lt.2 h.le
    rw [if_neg this, if_pos h]

theorem roundHalfEven_mono {q r : ℚ} (h : q ≤ r) : roundHalfEven q ≤ roundHalfEven r := by
  have hf : ⌊q⌋ ≤ ⌊r⌋ := Int.floor_mono h
  obtain ⟨⟨q1, q2⟩, q3, q4⟩ := roundHalfEven_bounds q
  obtain ⟨⟨r1, r2⟩, r3, r4⟩ := roundHalfEven_bounds r
  rcases lt_or_eq_of_le hf with hlt | heq
  · omega
  · -- same floor
    by_cases hq : q - ⌊q⌋ < 1 / 2
    · rw [q3 hq]; omega
    · by_cases hr : 1 / 2 < r - ⌊r⌋
      · rw [r4 hr]; omega
      · -- both fractional parts are exactly one half
        have hq' : q - ⌊q⌋ = 1 / 2 := by
          have : r - ⌊r⌋ ≤ 1 / 2 := not_lt.1 hr
          have : 1 / 2 ≤ q - ⌊q⌋ := not_lt.1 hq
          have : (⌊q⌋ : ℚ) = ⌊r⌋ := by rw [heq]
          linarith
        have hr' : r - ⌊r⌋ = 1 / 2 := by
          have : r - ⌊r⌋ ≤ 1 / 2 := not_lt.1 hr
          have : (⌊q⌋ : ℚ) = ⌊r⌋ := by rw [heq]
          linarith
        have e : q = r := by
          have : (⌊q⌋ : ℚ) = ⌊r⌋ := by rw [heq]
          linarith
        rw [e]

theorem two_pow_mul_zpow (k : ℕ) (b e : ℤ) (h : (k : ℤ) + b = e) :
    (((2 : ℤ) ^ k : ℤ) : ℚ) * (2 : ℚ) ^ b = (2 : ℚ) ^ e := by
  rw [Int.cast_pow, Int.cast_ofNat, ← zpow_natCast, ← zpow_add₀ (by norm_num), h]

theorem ulp_pos (x : ℚ) : 0 < ulp x := by
  unfold ulp
  positivity

theorem binade_eq {x : ℚ} {e : ℤ} (h1 : (2 : ℚ) ^ e ≤ |x|) (h2 : |x| < (2 : ℚ) ^ (e + 1))
    (he : -1022 ≤ e) : binade x = e := by
  have hpos : 0 < |x| := lt_of_lt_of_le (by positivity) h1
  have e1 : e ≤ Int.log 2 |x| := by
    rw [← Int.zpow_le_iff_le_log (by norm_num) hpos]
    simpa using h1
  have e2 : Int.log 2 |x| < e + 1 := by
    rw [← Int.lt_zpow_iff_log_lt (by norm_num) hpos]
    simpa using h2
  unfold binade
  omega

theorem binade_bounds {x : ℚ} (hx : 0 < x) :
    x < (2 : ℚ) ^ (binade x + 1) ∧ (-1022 < binade x → (2 : ℚ) ^ binade x ≤ x) := by
  have habs : |x| = x := abs_of_pos hx
  have h1 : x < (2 : ℚ) ^ (Int.log 2 x + 1) := by
    simpa using Int.lt_zpow_succ_log_self (b := 2) (by norm_num) x
  have h2 : (2 : ℚ) ^ Int.log 2 x ≤ x := by
    simpa using Int.zpow_log_le_self (b := 2) (by norm_num) hx
  unfold binade
  rw [habs]
  constructor
  · refine lt_of_lt_of_le h1 ?_
    exact zpow_le_zpow_right₀ (by norm_num) (by omega)
  · intro h
    have : max (Int.log 2 x) (-1022) = Int.log 2 x := by omega
    rw [this]
    exact h2

theorem binade_mono {x y : ℚ} (hx : 0 < x) (h : x ≤ y) : binade x ≤ binade y := by
  have hy : 0 < y := lt_of_lt_of_le hx h
  unfold binade
  rw [abs_of_pos hx, abs_of_pos hy]
  have := Int.log_mono_right (b := 2) hx h
  omega

theorem roundMagnitude_zero : roundMagnitude 0 = 0 := by
  simp [roundMagnitude, roundHalfEven]

theorem roundMagnitude_nonneg {a : ℚ} (h : 0 ≤ a) : 0 ≤ roundMagnitude a := by
  unfold roundMagnitude
  have h0 : (0 : ℚ) ≤ a / ulp a := div_nonneg h (ulp_pos a).le
  have : roundHalfEven 0 ≤ roundHalfEven (a / ulp a) := roundHalfEven_mono h0
  have z : roundHalfEven 0 = 0 := by simpa using roundHalfEven_intCast 0
  rw [z] at this
  exact mul_nonneg (by exact_mod_cast this) (ulp_pos a).le

theorem roundMagnitude_mono {x y : ℚ} (hx : 0 ≤ x) (h : x ≤ y) :
    roundMagnitude x ≤ roundMagnitude y := by
  rcases eq_or_lt_of_le hx with h0 | hpos
  · rw [← h0, roundMagnitude_zero]
    exact roundMagnitude_nonneg (hx.trans h)
  · have hy : 0 < y := lt_of_lt_of_le hpos h
    rcases eq_or_lt_of_le (binade_mono hpos h) with heq | hlt
    · unfold roundMagnitude
      have hu : ulp x = ulp y := by unfold ulp; rw [heq]
      rw [hu]
      have : x / ulp y ≤ y / ulp y := div_le_div_of_nonneg_right h (ulp_pos y).le
      have := roundHalfEven_mono this
      exact mul_le_mul_of_nonneg_right (by exact_mod_cast this) (ulp_pos y).le
    · -- x lies in a lower binade than y
      have bx := (binade_bounds hpos).1
      have by2 := (binade_bounds hy).2 (by
        have : -1022 ≤ binade x := by unfold binade; omega
        omega)
      have hxle : roundMagnitude x ≤ (2 : ℚ) ^ (binade x + 1) := by
        unfold roundMagnitude
        have hq : x / ulp x ≤ ((2 ^ 53 : ℤ) : ℚ) := by
          rw [div_le_iff₀ (ulp_pos x)]
          unfold ulp
          have : ((2 ^ 53 : ℤ) : ℚ) * (2 : ℚ) ^ (binade x - 52) = (2 : ℚ) ^ (binade x + 1) :=
            two_pow_mul_zpow 53 _ _ (by push_cast; ring)
          rw [this]
          exact bx.le
        have := roundHalfEven_mono hq
        rw [roundHalfEven_intCast] at this
        have h2 : ((roundHalfEven (x / ulp x) : ℤ) : ℚ) ≤ ((2 ^ 53 : ℤ) : ℚ) := by
          exact_mod_cast this
        calc (roundHalfEven (x / ulp x) : ℚ) * ulp x
            ≤ ((2 ^ 53 : ℤ) : ℚ) * ulp x := mul_le_mul_of_nonneg_right h2 (ulp_pos x).le
          _ = (2 : ℚ) ^ (binade x + 1) := two_pow_mul_zpow 53 _ _ (by push_cast; ring)
      have hyge : (2 : ℚ) ^ binade y ≤ roundMagnitude y := by
        unfold roundMagnitude
        have hq : ((2 ^ 52 : ℤ) : ℚ) ≤ y / ulp y := by
          rw [le_div_iff₀ (ulp_pos y)]
          unfold ulp
          have : ((2 ^ 52 : ℤ) : ℚ) * (2 : ℚ) ^ (binade y - 52) = (2 : ℚ) ^ (binade y) :=
            two_pow_mul_zpow 52 _ _ (by push_cast; ring)
          rw [this]
          exact by2
        have := roundHalfEven_mono hq
        rw [roundHalfEven_intCast] at this
        have h2 : ((2 ^ 52 : ℤ) : ℚ) ≤ ((roundHalfEven (y / ulp y) : ℤ) : ℚ) := by
          exact_mod_cast this
        calc (2 : ℚ) ^ binade y = ((2 ^ 52 : ℤ) : ℚ) * ulp y :=
              (two_pow_mul_zpow 52 _ _ (by push_cast; ring)).symm
          _ ≤ (roundHalfEven (y / ulp y) : ℚ) * ulp y :=
              mul_le_mul_of_nonneg_right h2 (ulp_pos y).le
      have hmid : (2 : ℚ) ^ (binade x + 1) ≤ (2 : ℚ) ^ binade y :=
        zpow_le_zpow_right₀ (by norm_num) (by omega)
      linarith

theorem round64_mono {x y : ℚ} (h : x ≤ y) : round64 x ≤ round64 y := by
  unfold round64
  by_cases hx : 0 ≤ x
  · have hy : 0 ≤ y := hx.trans h
    rw [if_pos hx, if_pos hy]
    exact roundMagnitude_mono hx h
  · rw [if_neg hx]
    push_neg at hx
    by_cases hy : 0 ≤ y
    · rw [if_pos hy]
      have := roundMagnitude_nonneg (a := -x) (by linarith)
      have := roundMagnitude_nonneg hy
      linarith
    · rw [if_neg hy]
      push_neg at hy
      have := roundMagnitude_mono (x := -y) (y := -x) (by linarith) (by linarith)
      linarith

theorem roundHalfEven_eq_of_near {q : ℚ} {n : ℤ} (h1 : (n : ℚ) - 1 / 2 < q)
    (h2 : q < (n : ℚ) + 1 / 2) : roundHalfEven q = n := by
  obtain ⟨-, b1, b2⟩ := roundHalfEven_bounds q
  rcases le_or_lt (n : ℚ) q with hle | hlt
  · have hf : ⌊q⌋ = n := by
      rw [Int.floor_eq_iff]
      constructor
      · exact hle
      · linarith
    rw [b1 (by rw [hf]; linarith), hf]
  · have hf : ⌊q⌋ = n - 1 := by
      rw [Int.floor_eq_iff]
      push_cast
      constructor
      · linarith
      · linarith
    rw [b2 (by rw [hf]; push_cast; linarith), hf]
    ring

theorem roundMagnitude_eq {a : ℚ} (e n : ℤ) (h1 : (2 : ℚ) ^ e ≤ a) (h2 : a < (2 : ℚ) ^ (e + 1))
    (he : -1022 ≤ e) (hn1 : (n : ℚ) - 1 / 2 < a / (2 : ℚ) ^ (e - 52))
    (hn2 : a / (2 : ℚ) ^ (e - 52) < (n : ℚ) + 1 / 2) :
    roundMagnitude a = (n : ℚ) * (2 : ℚ) ^ (e - 52) := by
  have hpos : 0 < a := lt_of_lt_of_le (by positivity) h1
  have hb : binade a = e := binade_eq (by rwa [abs_of_pos hpos]) (by rwa [abs_of_pos hpos]) he
  unfold roundMagnitude ulp
  rw [hb, roundHalfEven_eq_of_near hn1 hn2]

theorem round64_eq_pos {x : ℚ} (e n : ℤ) (h1 : (2 : ℚ) ^ e ≤ x) (h2 : x < (2 : ℚ) ^ (e + 1))
    (he : -1022 ≤ e) (hn1 : (n : ℚ) - 1 / 2 < x / (2 : ℚ) ^ (e - 52))
    (hn2 : x / (2 : ℚ) ^ (e - 52) < (n : ℚ) + 1 / 2) :
    round64 x = (n : ℚ) * (2 : ℚ) ^ (e - 52) := by
  have hpos : 0 < x := lt_of_lt_of_le (by positivity) h1
  unfold round64
  rw [if_pos hpos.le]
  exact roundMagnitude_eq e n h1 h2 he hn1 hn2

theorem round64_neg (x : ℚ) : round64 (-x) = -round64 x := by
  unfold round64
  rcases lt_trichotomy x 0 with h | h | h
  · rw [if_pos (by linarith), if_neg (by linarith)]
    simp
  · subst h
    simp [roundMagnitude_zero]
  · rw [if_neg (by linarith), if_pos h.le]
    simp

theorem round64_zero : round64 0 = 0 := by
  simp [round64, roundMagnitude_zero]

theorem round64_one : round64 1 = 1 := by
  rw [round64_eq_pos 0 (2 ^ 52) (by norm_num) (by norm_num) (by norm_num) (by norm_num)
    (by norm_num)]
  norm_num

theorem round64_hundred : round64 100 = 100 := by
  rw [round64_eq_pos 6 (100 * 2 ^ 46) (by norm_num) (by norm_num) (by norm_num) (by norm_num)
    (by norm_num)]
  norm_num

theorem round64_tenth : round64 (1 / 10) = 3602879701896397 / 36028797018963968 := by
  rw [round64_eq_pos (-4) 7205759403792794 (by norm_num) (by norm_num) (by norm_num)
    (by norm_num) (by norm_num)]
  norm_num

theorem roundHalfEven_near (q : ℚ) : |(roundHalfEven q : ℚ) - q| ≤ 1 / 2 := by
  obtain ⟨-, b1, b2⟩ := roundHalfEven_bounds q
  have f1 : (⌊q⌋ : ℚ) ≤ q := Int.floor_le q
  have f2 : q < (⌊q⌋ : ℚ) + 1 := Int.lt_floor_add_one q
  rw [abs_le]
  by_cases h1 : q - ⌊q⌋ < 1 / 2
  · rw [b1 h1]; constructor <;> linarith
  · by_cases h2 : 1 / 2 < q - ⌊q⌋
    · rw [b2 h2]; push_cast; constructor <;> linarith
    · have e : q - ⌊q⌋ = 1 / 2 := le_antisymm (not_lt.1 h2) (not_lt.1 h1)
      unfold roundHalfEven
      rw [if_neg h1, if_neg h2]
      split_ifs
      · constructor <;> linarith
      · push_cast; constructor <;> linarith

/-- Rounding error: at most half a unit in the last place, which is at most
`2⁻⁵³` of the magnitude for a normal result and `2⁻¹⁰⁷⁵` below. -/
theorem roundMagnitude_error {a : ℚ} (ha : 0 ≤ a) :
    |roundMagnitude a - a| ≤ a * (2 : ℚ) ^ (-53 : ℤ) + (2 : ℚ) ^ (-1075 : ℤ) := by
  rcases eq_or_lt_of_le ha with h0 | hpos
  · rw [← h0, roundMagnitude_zero]
    norm_num
  have hu := ulp_pos a
  have h1 : |roundMagnitude a - a| ≤ ulp a / 2 := by
    have := roundHalfEven_near (a / ulp a)
    unfold roundMagnitude
    have e : (roundHalfEven (a / ulp a) : ℚ) * ulp a - a
        = ((roundHalfEven (a / ulp a) : ℚ) - a / ulp a) * ulp a := by
      field_simp
    rw [e, abs_mul, abs_of_pos hu]
    calc |(roundHalfEven (a / ulp a) : ℚ) - a / ulp a| * ulp a ≤ 1 / 2 * ulp a :=
          mul_le_mul_of_nonneg_right this hu.le
      _ = ulp a / 2 := by ring
  refine h1.trans ?_
  have hhalf : ulp a / 2 = (2 : ℚ) ^ (binade a - 53) := by
    unfold ulp
    rw [show binade a - 52 = (binade a - 53) + 1 by ring, zpow_add_one₀ (by norm_num)]
    ring
  rw [hhalf]
  by_cases hb : -1022 < binade a
  · have := (binade_bounds hpos).2 hb
    have e2 : (2 : ℚ) ^ (binade a - 53) = (2 : ℚ) ^ binade a * (2 : ℚ) ^ (-53 : ℤ) := by
      rw [← zpow_add₀ (by norm_num)]
      congr 1
    rw [e2]
    have hp : (0 : ℚ) < (2 : ℚ) ^ (-53 : ℤ) := by positivity
    have hp2 : (0 : ℚ) < (2 : ℚ) ^ (-1075 : ℤ) := by positivity
    nlinarith [mul_le_mul_of_nonneg_right this hp.le]
  · have hb2 : binade a = -1022 := by
      have : -1022 ≤ binade a := by unfold binade; omega
      omega
    rw [hb2]
    have hp : (0 : ℚ) ≤ a * (2 : ℚ) ^ (-53 : ℤ) := mul_nonneg ha (by positivity)
    have : (2 : ℚ) ^ ((-1022 : ℤ) - 53) = (2 : ℚ) ^ (-1075 : ℤ) := by norm_num
    rw [this]
    linarith

theorem round64_error (x : ℚ) :
    |round64 x - x| ≤ |x| * (2 : ℚ) ^ (-53 : ℤ) + (2 : ℚ) ^ (-1075 : ℤ) := by
  unfold round64
  by_cases hx : 0 ≤ x
  · rw [if_pos hx, abs_of_nonneg hx]
    exact roundMagnitude_error hx
  · rw [if_neg hx]
    push_neg at hx
    have := roundMagnitude_error (a := -x) (by linarith)
    rw [abs_of_neg hx]
    have e : -roundMagnitude (-x) - x = -(roundMagnitude (-x) - -x) := by ring
    rw [e, abs_neg]
    exact this

theorem binade_eq_least {a : ℚ} (h0 : 0 < a) (h : a < (2 : ℚ) ^ (-1021 : ℤ)) :
    binade a = -1022 := by
  have : Int.log 2 |a| < -1021 := by
    rw [abs_of_pos h0, ← Int.lt_zpow_iff_log_lt (by norm_num) h0]
    simpa using h
  unfold binade
  omega

theorem roundMagnitude_idem {a : ℚ} (ha : 0 ≤ a) :
    roundMagnitude (roundMagnitude a) = roundMagnitude a := by
  rcases eq_or_lt_of_le ha with h0 | hpos
  · rw [← h0, roundMagnitude_zero, roundMagnitude_zero]
  have hu := ulp_pos a
  have hb0 : -1022 ≤ binade a := by unfold binade; omega
  obtain ⟨bx, bl⟩ := binade_bounds hpos
  have hn0 : 0 ≤ roundHalfEven (a / ulp a) := by
    have := roundHalfEven_mono (div_nonneg ha hu.le)
    rwa [show ((0 : ℚ)) = ((0 : ℤ) : ℚ) by norm_num, roundHalfEven_intCast] at this
  have hn1 : roundHalfEven (a / ulp a) ≤ 2 ^ 53 := by
    have hq : a / ulp a ≤ ((2 ^ 53 : ℤ) : ℚ) := by
      rw [div_le_iff₀ hu]
      unfold ulp
      rw [two_pow_mul_zpow 53 _ (binade a + 1) (by push_cast; ring)]
      exact bx.le
    have := roundHalfEven_mono hq
    rwa [roundHalfEven_intCast] at this
  have hn2 : -1022 < binade a → (2 : ℤ) ^ 52 ≤ roundHalfEven (a / ulp a) := by
    intro hb
    have hq : ((2 ^ 52 : ℤ) : ℚ) ≤ a / ulp a := by
      rw [le_div_iff₀ hu]
      unfold ulp
      rw [two_pow_mul_zpow 52 _ (binade a) (by push_cast; ring)]
      exact bl hb
    have := roundHalfEven_mono hq
    rwa [roundHalfEven_intCast] at this
  have hr : roundMagnitude a = (roundHalfEven (a / ulp a) : ℚ) * (2 : ℚ) ^ (binade a - 52) := rfl
  generalize roundHalfEven (a / ulp a) = n at hn0 hn1 hn2 hr
  rcases eq_or_lt_of_le hn0 with hz | hnpos
  · rw [hr, ← hz]
    simp [roundMagnitude_zero]
  rcases eq_or_lt_of_le hn1 with htop | hlt
  · -- the result is the next power of two
    have hval : roundMagnitude a = (2 : ℚ) ^ (binade a + 1) := by
      rw [hr, htop]
      exact two_pow_mul_zpow 53 _ _ (by push_cast; ring)
    rw [hval]
    rw [roundMagnitude_eq (binade a + 1) (2 ^ 52) le_rfl
      (zpow_lt_zpow_right₀ (by norm_num) (by omega)) (by omega)]
    · rw [show binade a + 1 - 52 = binade a - 51 by ring]
      exact two_pow_mul_zpow 52 _ _ (by push_cast; ring)
    · rw [show binade a + 1 - 52 = binade a - 51 by ring,
        ← two_pow_mul_zpow 52 (binade a - 51) (binade a + 1) (by push_cast; ring)]
      rw [mul_div_assoc, div_self (by positivity)]
      norm_num
    · rw [show binade a + 1 - 52 = binade a - 51 by ring,
        ← two_pow_mul_zpow 52 (binade a - 51) (binade a + 1) (by push_cast; ring)]
      rw [mul_div_assoc, div_self (by positivity)]
      norm_num
  · have hup : 0 < (2 : ℚ) ^ (binade a - 52) := by positivity
    have hnq : (0 : ℚ) < (n : ℚ) := by exact_mod_cast hnpos
    have hrpos : 0 < (n : ℚ) * (2 : ℚ) ^ (binade a - 52) := mul_pos hnq hup
    have hrlt : (n : ℚ) * (2 : ℚ) ^ (binade a - 52) < (2 : ℚ) ^ (binade a + 1) := by
      rw [← two_pow_mul_zpow 53 (binade a - 52) (binade a + 1) (by push_cast; ring)]
      exact mul_lt_mul_of_pos_right (by exact_mod_cast hlt) hup
    have hbin : binade ((n : ℚ) * (2 : ℚ) ^ (binade a - 52)) = binade a := by
      by_cases hb : -1022 < binade a
      · have hn52 : (2 : ℤ) ^ 52 ≤ n := hn2 hb
        have hge : (2 : ℚ) ^ binade a ≤ (n : ℚ) * (2 : ℚ) ^ (binade a - 52) := by
          rw [← two_pow_mul_zpow 52 (binade a - 52) (binade a) (by push_cast; ring)]
          exact mul_le_mul_of_nonneg_right (by exact_mod_cast hn52) hup.le
        exact binade_eq (by rwa [abs_of_pos hrpos]) (by rwa [abs_of_pos hrpos]) hb0
      · have hb2 : binade a = -1022 := by omega
        rw [hb2] at hrlt hrpos ⊢
        exact binade_eq_least hrpos (by simpa using hrlt)
    rw [hr]
    unfold roundMagnitude ulp
    rw [hbin, mul_div_assoc, div_self (ne_of_gt hup), mul_one, roundHalfEven_intCast]

theorem round64_idem (x : ℚ) : round64 (round64 x) = round64 x := by
  by_cases hx : 0 ≤ x
  · have e : round64 x = roundMagnitude x := by unfold round64; rw [if_pos hx]
    rw [e]
    unfold round64
    rw [if_pos (roundMagnitude_nonneg hx)]
    exact roundMagnitude_idem hx
  · push_neg at hx
    have e : round64 x = -roundMagnitude (-x) := by unfold round64; rw [if_neg (not_le.2 hx)]
    rw [e, round64_neg]
    congr 1
    have h0 : 0 ≤ roundMagnitude (-x) := roundMagnitude_nonneg (by linarith)
    unfold round64
    rw [if_pos h0]
    exact roundMagnitude_idem (by linarith)

/-- Between two neighbouring doubles of a binade there is no double. -/
theorem double_gap {d : ℚ} (e n : ℤ) (hd : round64 d = d) (h1 : (2 : ℚ) ^ e ≤ d)
    (h2 : d < (2 : ℚ) ^ (e + 1)) (he : -1022 ≤ e) (hlt : d < (n : ℚ) * (2 : ℚ) ^ (e - 52)) :
    d ≤ ((n : ℚ) - 1) * (2 : ℚ) ^ (e - 52) := by
  have hpos : 0 < d := lt_of_lt_of_le (by positivity) h1
  have hb : binade d = e := binade_eq (by rwa [abs_of_pos hpos]) (by rwa [abs_of_pos hpos]) he
  have hup : 0 < (2 : ℚ) ^ (e - 52) := by positivity
  have e1 : d = (roundHalfEven (d / ulp d) : ℚ) * (2 : ℚ) ^ (e - 52) := by
    have : round64 d = roundMagnitude d := by unfold round64; rw [if_pos hpos.le]
    rw [this] at hd
    unfold roundMagnitude at hd
    have hu : ulp d = (2 : ℚ) ^ (e - 52) := by unfold ulp; rw [hb]
    rw [hu] at hd ⊢
    exact hd.symm
  generalize roundHalfEven (d / ulp d) = m at e1
  have hmn : m < n := by
    have : (m : ℚ) * (2 : ℚ) ^ (e - 52) < (n : ℚ) * (2 : ℚ) ^ (e - 52) := by rw [← e1]; exact hlt
    have := lt_of_mul_lt_mul_right this hup.le
    exact_mod_cast this
  rw [e1]
  apply mul_le_mul_of_nonneg_right _ hup.le
  have : m ≤ n - 1 := by omega
  exact_mod_cast this

theorem round64_nonneg {x : ℚ} (h : 0 ≤ x) : 0 ≤ round64 x := by
  have := round64_mono h
  rwa [round64_zero] at this

theorem round64_error_le (x : ℚ) : |round64 x - x| ≤ |x| / 2 ^ 53 + 1 / 2 ^ 100 := by
  have h := round64_error x
  have e1 : |x| * (2 : ℚ) ^ (-53 : ℤ) = |x| / 2 ^ 53 := by
    rw [zpow_neg, div_eq_mul_inv]; norm_cast
  have e2 : (2 : ℚ) ^ (-1075 : ℤ) ≤ 1 / 2 ^ 100 := by
    rw [zpow_neg, one_div]
    apply inv_anti₀ (by positivity)
    rw [← zpow_natCast]
    exact zpow_le_zpow_right₀ (by norm_num) (by norm_num)
  rw [e1] at h
  linarith

theorem round64_tenth_idem :
    round64 (3602879701896397 / 36028797018963968) = 3602879701896397 / 36028797018963968 := by
  rw [← round64_tenth, round64_idem]

theorem round64_tenthousand : round64 10000 = 10000 := by
  rw [round64_eq_pos 13 (10000 * 2 ^ 39) (by norm_num) (by norm_num) (by norm_num) (by norm_num)
    (by norm_num)]
  norm_num

/-- A double below 100 is at most the double before 100. -/
theorem double_lt_hundred {d : ℚ} (hd : round64 d = d) (h : d < 100) :
    d ≤ 100 - 1 / 2 ^ 46 := by
  by_cases h64 : d < 64
  · norm_num at h64 ⊢; linarith
  · push_neg at h64
    have := double_gap 6 (100 * 2 ^ 46) hd (by norm_num; exact h64) (by norm_num; linarith)
      (by norm_num) (by norm_num; exact h)
    norm_num at this ⊢
    linarith

/-- A double below 10000 is at most the double before 10000. -/
theorem double_lt_tenthousand {s : ℚ} (hs : round64 s = s) (h : s < 10000) :
    s ≤ 10000 - 1 / 2 ^ 39 := by
  by_cases h8 : s < 8192
  · norm_num at h8 ⊢; linarith
  · push_neg at h8
    have := double_gap 13 (10000 * 2 ^ 39) hs (by norm_num; exact h8) (by norm_num; linarith)
      (by norm_num) (by norm_num; exact h)
    norm_num at this ⊢
    linarith

/-- With a correctly rounded root of a double `s`, the root is below 100 exactly
when `s` is below `100²`. -/
theorem roundedSqrt_lt_hundred {s y : ℚ} (hs : round64 s = s) (h : IsRoundedSqrt s y) :
    y < 100 ↔ s < 100 * 100 := by
  obtain ⟨h0, hy, hz⟩ := h
  constructor
  · intro hlt
    have := (hz 100 (by norm_num) round64_hundred).2 hlt
    have hy2 := double_lt_hundred hy hlt
    nlinarith
  · intro hlt
    by_contra hge
    push_neg at hge
    have hs2 := double_lt_tenthousand hs (by linarith)
    have hz0 : round64 (100 - 1 / 2 ^ 46) = 100 - 1 / 2 ^ 46 := by
      rw [round64_eq_pos 6 (100 * 2 ^ 46 - 1) (by norm_num) (by norm_num) (by norm_num)
        (by norm_num) (by norm_num)]
      norm_num
    have := (hz (100 - 1 / 2 ^ 46) (by norm_num) hz0).1 (by linarith)
    have hmid : (100 - 1 / 2 ^ 47 : ℚ) ≤ (100 - 1 / 2 ^ 46 + y) / 2 := by
      norm_num at hge ⊢; linarith
    have hsq : (100 - 1 / 2 ^ 47 : ℚ) ^ 2 ≤ ((100 - 1 / 2 ^ 46 + y) / 2) ^ 2 :=
      pow_le_pow_left₀ (by norm_num) hmid 2
    have hnum : (10000 - 1 / 2 ^ 39 : ℚ) < (100 - 1 / 2 ^ 47 : ℚ) ^ 2 := by norm_num
    linarith

/-- The alpha never increases as the distance grows. -/
theorem connectorAlpha_antitone {d1 d2 : ℚ} (h : d1 ≤ d2) :
    connectorAlpha d2 ≤ connectorAlpha d1 := by
  unfold connectorAlpha
  apply round64_mono
  have hc : 0 ≤ round64 (1 / 10) := round64_nonneg (by norm_num)
  apply mul_le_mul_of_nonneg_left _ hc
  apply round64_mono
  have : round64 (d1 / 100) ≤ round64 (d2 / 100) :=
    round64_mono (div_le_div_of_nonneg_right h (by norm_num))
  linarith

theorem connectorAlpha_hundred : connectorAlpha 100 = 0 := by
  unfold connectorAlpha
  rw [show (100 : ℚ) / 100 = 1 by norm_num, round64_one, sub_self, round64_zero, mul_zero,
    round64_zero]

theorem connectorAlpha_zero : connectorAlpha 0 = round64 (1 / 10) := by
  unfold connectorAlpha
  rw [zero_div, round64_zero, sub_zero, round64_one, mul_one, round64_idem]

theorem connectorAlpha_le {d : ℚ} (h : 0 ≤ d) : connectorAlpha d ≤ round64 (1 / 10) := by
  rw [← connectorAlpha_zero]
  exact connectorAlpha_antitone h

theorem connectorAlpha_pos {d : ℚ} (h : d ≤ 100 - 1 / 2 ^ 46) : 0 < connectorAlpha d := by
  have h1 : connectorAlpha (100 - 1 / 2 ^ 46) ≤ connectorAlpha d := connectorAlpha_antitone h
  refine lt_of_lt_of_le ?_ h1
  unfold connectorAlpha
  have e1 : round64 ((100 - 1 / 2 ^ 46) / 100) = 1 - 1 / 2 ^ 53 := by
    rw [round64_eq_pos (-1) (2 ^ 53 - 1) (by norm_num) (by norm_num) (by norm_num)
      (by norm_num) (by norm_num)]
    norm_num
  have e2 : round64 (1 - (1 - 1 / 2 ^ 53)) = 1 / 2 ^ 53 := by
    rw [round64_eq_pos (-53) (2 ^ 52) (by norm_num) (by norm_num) (by norm_num)
      (by norm_num) (by norm_num)]
    norm_num
  have e3 : round64 (3602879701896397 / 36028797018963968 * (1 / 2 ^ 53))
      = 3602879701896397 / 36028797018963968 * (1 / 2 ^ 53) := by
    rw [round64_eq_pos (-57) 7205759403792794 (by norm_num) (by norm_num) (by norm_num)
      (by norm_num) (by norm_num)]
    norm_num
  rw [e1, e2, round64_tenth, e3]
  norm_num

theorem round64_bounds_nonneg {v : ℚ} (hv : 0 ≤ v) :
    v * (1 - 1 / 2 ^ 53) - 1 / 2 ^ 100 ≤ round64 v
    ∧ round64 v ≤ v * (1 + 1 / 2 ^ 53) + 1 / 2 ^ 100 := by
  have h := round64_error_le v
  rw [abs_of_nonneg hv, abs_le] at h
  constructor <;> linarith [h.1, h.2]

theorem round64_sq_lower {t : ℚ} (ht : |t| ≤ 100) :
    t ^ 2 * (1 - 2 / 2 ^ 53) - 200 / 2 ^ 100 ≤ (round64 t) ^ 2 := by
  have h := round64_error_le t
  have h2 : |(|round64 t| - |t|)| ≤ |round64 t - t| := abs_abs_sub_abs_le_abs_sub _ _
  have ha : 0 ≤ |t| := abs_nonneg t
  have hg : 0 ≤ |round64 t| := abs_nonneg _
  have hlow : |t| * (1 - 1 / 2 ^ 53) - 1 / 2 ^ 100 ≤ |round64 t| := by
    have := (abs_le.1 (h2.trans h)).1
    linarith
  rw [← sq_abs t, ← sq_abs (round64 t)]
  generalize |t| = a at *
  generalize |round64 t| = g at *
  by_cases hc : 0 ≤ a * (1 - 1 / 2 ^ 53) - 1 / 2 ^ 100
  · have := pow_le_pow_left₀ hc hlow 2
    nlinarith
  · push_neg at hc
    have ha2 : a < 1 / 2 ^ 99 := by norm_num at hc ⊢; linarith
    nlinarith

theorem round64_sq_upper {t : ℚ} (ht : |t| ≤ 100) :
    (round64 t) ^ 2 ≤ t ^ 2 * (1 + 3 / 2 ^ 53) + 201 / 2 ^ 100 := by
  have h := round64_error_le t
  have h2 : |(|round64 t| - |t|)| ≤ |round64 t - t| := abs_abs_sub_abs_le_abs_sub _ _
  have ha : 0 ≤ |t| := abs_nonneg t
  have hg : 0 ≤ |round64 t| := abs_nonneg _
  have hup : |round64 t| ≤ |t| * (1 + 1 / 2 ^ 53) + 1 / 2 ^ 100 := by
    have := (abs_le.1 (h2.trans h)).2
    linarith
  rw [← sq_abs t, ← sq_abs (round64 t)]
  generalize |t| = a at *
  generalize |round64 t| = g at *
  have := pow_le_pow_left₀ hg hup 2
  nlinarith

theorem round64_neg_hundred : round64 (-100) = -100 := by
  rw [round64_neg, round64_hundred]

theorem round64_sq_far {t : ℚ} (ht : 100 ≤ |t|) : 10000 ≤ round64 (round64 t * round64 t) := by
  have h : 100 ≤ |round64 t| := by
    rcases le_abs'.1 ht with h | h
    · have := round64_mono h
      rw [round64_neg_hundred] at this
      rw [abs_of_nonpos (by linarith)]
      linarith
    · have := round64_mono h
      rw [round64_hundred] at this
      rw [abs_of_nonneg (by linarith)]
      exact this
  have h2 : (10000 : ℚ) ≤ round64 t * round64 t := by
    rw [← abs_mul_abs_self (round64 t)]
    nlinarith [abs_nonneg (round64 t)]
  have := round64_mono h2
  rwa [round64_tenthousand] at this

theorem round64_sq_nonneg (t : ℚ) : 0 ≤ round64 (round64 t * round64 t) :=
  round64_nonneg (mul_self_nonneg _)

/-- A pair at exact distance `100 + 10⁻¹²` or more has a computed square of
`100²` or more. -/
theorem pairSquare_ge {p1 p2 : Particle}
    (h : (100 + 1 / 10 ^ 12 : ℚ) ^ 2 ≤ (p1.x - p2.x) ^ 2 + (p1.y - p2.y) ^ 2) :
    100 * 100 ≤ pairSquare p1 p2 := by
  unfold pairSquare
  simp only []
  have key : (10000 : ℚ) ≤ round64 (round64 (p1.x - p2.x) * round64 (p1.x - p2.x))
      + round64 (round64 (p1.y - p2.y) * round64 (p1.y - p2.y)) := by
    by_cases hx : 100 ≤ |p1.x - p2.x|
    · have := round64_sq_far hx
      have := round64_sq_nonneg (p1.y - p2.y)
      linarith
    by_cases hy : 100 ≤ |p1.y - p2.y|
    · have := round64_sq_far hy
      have := round64_sq_nonneg (p1.x - p2.x)
      linarith
    push_neg at hx hy
    have sx := round64_sq_lower hx.le
    have sy := round64_sq_lower hy.le
    have ax := (round64_bounds_nonneg (mul_self_nonneg (round64 (p1.x - p2.x)))).1
    have ay := (round64_bounds_nonneg (mul_self_nonneg (round64 (p1.y - p2.y)))).1
    rw [← pow_two] at ax ay
    rw [← pow_two, ← pow_two]
    norm_num at h sx sy ax ay ⊢
    linarith
  have := round64_mono key
  rw [round64_tenthousand] at this
  linarith

/-- A pair at exact distance `100 - 10⁻¹²` or less has a computed square below
`100²`. -/
theorem pairSquare_lt {p1 p2 : Particle}
    (h : (p1.x - p2.x) ^ 2 + (p1.y - p2.y) ^ 2 ≤ (100 - 1 / 10 ^ 12 : ℚ) ^ 2) :
    pairSquare p1 p2 < 100 * 100 := by
  unfold pairSquare
  simp only []
  have hx : |p1.x - p2.x| ≤ 100 := by
    rw [← abs_of_nonneg (show (0 : ℚ) ≤ 100 by norm_num)]
    apply sq_le_sq.1
    nlinarith [sq_nonneg (p1.y - p2.y)]
  have hy : |p1.y - p2.y| ≤ 100 := by
    rw [← abs_of_nonneg (show (0 : ℚ) ≤ 100 by norm_num)]
    apply sq_le_sq.1
    nlinarith [sq_nonneg (p1.x - p2.x)]
  have sx := round64_sq_upper hx
  have sy := round64_sq_upper hy
  have ax := (round64_bounds_nonneg (mul_self_nonneg (round64 (p1.x - p2.x)))).2
  have ay := (round64_bounds_nonneg (mul_self_nonneg (round64 (p1.y - p2.y)))).2
  have hsum : 0 ≤ round64 (round64 (p1.x - p2.x) * round64 (p1.x - p2.x))
      + round64 (round64 (p1.y - p2.y) * round64 (p1.y - p2.y)) :=
    add_nonneg (round64_sq_nonneg _) (round64_sq_nonneg _)
  have as := (round64_bounds_nonneg hsum).2
  rw [← pow_two] at ax ay
  rw [← pow_two, ← pow_two] at as hsum ⊢
  norm_num at h sx sy ax ay as ⊢
  linarith

/-! ### Connection pass -/

theorem countP_eq_of_nodup {α : Type} [DecidableEq α] (l : List α) (a : α) (hnd : l.Nodup) :
    l.countP (fun q => decide (q = a)) = if a ∈ l then 1 else 0 := by
  induction l with
  | nil => simp
  | cons b t ih =>
    rw [List.nodup_cons] at hnd
    rw [List.countP_cons, ih hnd.2]
    by_cases hb : b = a
    · subst hb
      simp [hnd.1]
    · have hb2 : ¬ a = b := fun h => hb h.symm
      simp [hb, hb2]

/-- The index pairs the two nested loops visit are `(i, i + 1 + k)` for `i`
below the length and `k` below the length of the slice, in that order. -/
theorem examinedPairs_eq (sqrt : ℚ → ℚ) (particles : List Particle) :
    examinedPairs sqrt particles
      = (List.range particles.length).flatMap fun i =>
          (List.range (particles.length - (i + 1))).map fun k => (i, i + 1 + k) := by
  unfold examinedPairs connectionPass
  rw [List.map_flatMap, ← List.enum_map_fst particles, List.flatMap_map]
  congr 1
  funext ip
  simp only [List.map_map, Function.comp_def]
  rw [← List.length_drop, ← List.enum_map_fst (List.drop (ip.1 + 1) particles), List.map_map]
  rfl

theorem mem_pairs_iff (n a b : Nat) :
    (a, b) ∈ ((List.range n).flatMap fun i =>
        (List.range (n - (i + 1))).map fun k => (i, i + 1 + k)) ↔ a < b ∧ b < n := by
  simp only [List.mem_flatMap, List.mem_map, List.mem_range, Prod.mk.injEq]
  constructor
  · rintro ⟨i, hi, k, hk, rfl, rfl⟩
    omega
  · rintro ⟨hab, hbn⟩
    exact ⟨a, by omega, b - (a + 1), by omega, rfl, by omega⟩

theorem nodup_pairs (n : Nat) :
    ((List.range n).flatMap fun i =>
        (List.range (n - (i + 1))).map fun k => (i, i + 1 + k)).Nodup := by
  rw [List.nodup_flatMap]
  constructor
  · intro i _
    refine (List.nodup_range _).map ?_
    intro k1 k2 h
    simp only [Prod.mk.injEq, true_and] at h
    omega
  · refine (List.pairwise_lt_range n).imp ?_
    intro a b hab
    simp only [Function.onFun]
    rw [List.disjoint_left]
    intro x hx1 hx2
    simp only [List.mem_map, List.mem_range] at hx1 hx2
    obtain ⟨k1, -, rfl⟩ := hx1
    obtain ⟨k2, -, h⟩ := hx2
    simp only [Prod.mk.injEq] at h
    omega

theorem sum_gaps (c n : Nat) (h : n ≤ c) :
    2 * ((List.range n).map fun i => c - (i + 1)).sum + n * (n + 1) = 2 * n * c := by
  induction n with
  | zero => simp
  | succ k ih =>
    have ih := ih (by omega)
    obtain ⟨d, rfl⟩ : ∃ d, c = d + (k + 1) := ⟨c - (k + 1), by omega⟩
    rw [List.range_succ, List.map_append, List.sum_append]
    simp only [List.map_cons, List.map_nil, List.sum_cons, List.sum_nil, Nat.add_sub_cancel]
    nlinarith [ih]

theorem length_pairs (n : Nat) :
    ((List.range n).flatMap fun i =>
        (List.range (n - (i + 1))).map fun k => (i, i + 1 + k)).length = n * (n - 1) / 2 := by
  rw [List.length_flatMap]
  have h := sum_gaps n n le_rfl
  have e : (List.length ∘ fun i => List.map (fun k => (i, i + 1 + k))
      (List.range (n - (i + 1)))) = fun i => n - (i + 1) := by
    funext i
    simp
  rw [e]
  cases n with
  | zero => simp
  | succ m =>
    simp only [Nat.add_sub_cancel]
    apply Nat.eq_div_of_mul_eq_right (by norm_num)
    nlinarith [h]

/-- Each run of the inner body is on the particles at the two indices it
records, the first index below the second. -/
theorem connectionPass_sound (sqrt : ℚ → ℚ) (particles : List Particle) (c : PairCheck)
    (hc : c ∈ connectionPass sqrt particles) :
    c.i < c.j ∧ particles[c.i]? = some c.p1 ∧ particles[c.j]? = some c.p2
      ∧ c.alpha = connect sqrt c.p1 c.p2 := by
  simp only [connectionPass, List.mem_flatMap, List.mem_map] at hc
  obtain ⟨ip, hip, kq, hkq, rfl⟩ := hc
  rw [List.mem_enum_iff_getElem?] at hip hkq
  rw [List.getElem?_drop] at hkq
  exact ⟨by simp only; omega, hip, hkq, rfl⟩

/-- C10: for a collection of `n` particles the connection pass makes exactly
`n * (n - 1) / 2` distance checks; the index pairs it examines are exactly the
pairs `(i, j)` with `i < j < n`; every unordered pair of distinct indices is
examined exactly once (in one of its two orders), no index is paired with
itself, and each check is on the particles at its two indices. -/
theorem connection_pass_exhaustive (sqrt : ℚ → ℚ) (particles : List Particle) :
    (connectionPass sqrt particles).length = particles.length * (particles.length - 1) / 2
    ∧ (∀ i j, (i, j) ∈ examinedPairs sqrt particles ↔ i < j ∧ j < particles.length)
    ∧ (∀ i j, i < particles.length → j < particles.length → i ≠ j →
        (examinedPairs sqrt particles).countP (fun q => decide (q = (i, j)))
          + (examinedPairs sqrt particles).countP (fun q => decide (q = (j, i))) = 1)
    ∧ (∀ i, (examinedPairs sqrt particles).countP (fun q => decide (q = (i, i))) = 0)
    ∧ (∀ c ∈ connectionPass sqrt particles,
        particles[c.i]? = some c.p1 ∧ particles[c.j]? = some c.p2
          ∧ c.alpha = connect sqrt c.p1 c.p2) := by
  have hmem : ∀ i j, (i, j) ∈ examinedPairs sqrt particles ↔ i < j ∧ j < particles.length := by
    intro i j
    rw [examinedPairs_eq]
    exact mem_pairs_iff _ i j
  have hnd : (examinedPairs sqrt particles).Nodup := by
    rw [examinedPairs_eq]
    exact nodup_pairs _
  refine ⟨?_, hmem, ?_, ?_, fun c hc => (connectionPass_sound sqrt particles c hc).2⟩
  · have h := length_pairs particles.length
    rw [← examinedPairs_eq sqrt particles] at h
    simpa [examinedPairs] using h
  · intro i j hi hj hij
    rw [countP_eq_of_nodup _ _ hnd, countP_eq_of_nodup _ _ hnd]
    simp only [hmem]
    rcases Nat.lt_or_gt_of_ne hij with h | h
    · rw [if_pos ⟨h, hj⟩, if_neg (by omega)]
    · rw [if_neg (by omega), if_pos ⟨h, hi⟩]
  · intro i
    rw [countP_eq_of_nodup _ _ hnd]
    simp only [hmem]
    rw [if_neg (by omega)]

/-- The runs of the inner body are exactly the pairs of indices `i < j`, each
on the particles at the two indices. -/
theorem mem_connectionPass_iff (sqrt : ℚ → ℚ) (particles : List Particle) (c : PairCheck) :
    c ∈ connectionPass sqrt particles ↔
      c.i < c.j ∧ particles[c.i]? = some c.p1 ∧ particles[c.j]? = some c.p2
        ∧ c.alpha = connect sqrt c.p1 c.p2 := by
  constructor
  · exact connectionPass_sound sqrt particles c
  · rintro ⟨hij, h1, h2, h3⟩
    simp only [connectionPass, List.mem_flatMap, List.mem_map]
    refine ⟨(c.i, c.p1), List.mem_enum_iff_getElem?.2 h1, (c.j - (c.i + 1), c.p2), ?_, ?_⟩
    · rw [List.mem_enum_iff_getElem?, List.getElem?_drop]
      simp only []
      rw [show c.i + 1 + (c.j - (c.i + 1)) = c.j by omega]
      exact h2
    · obtain ⟨i, j, p1, p2, alpha⟩ := c
      simp only [PairCheck.mk.injEq] at h3 ⊢
      simp only [] at hij
      exact ⟨trivial, by omega, trivial, trivial, h3.symm⟩

/-- The lines a frame strokes are exactly those of the pairs `i < j` of moved
particles for which `connect` gives an alpha, from the first particle to the
second, in the colour of the theme. -/
theorem strokeLine_mem_iff (sqrt : ℚ → ℚ) (theme : String) (f : Field)
    (col : String) (a x1 y1 x2 y2 : ℚ) :
    DrawCmd.strokeLine col a x1 y1 x2 y2 ∈ (animateParticles sqrt theme f).2 ↔
      ∃ (i j : Nat) (p1 p2 : Particle), i < j
        ∧ (animateParticles sqrt theme f).1.particles[i]? = some p1
        ∧ (animateParticles sqrt theme f).1.particles[j]? = some p2
        ∧ connect sqrt p1 p2 = some a
        ∧ col = particleColor theme ∧ x1 = p1.x ∧ y1 = p1.y ∧ x2 = p2.x ∧ y2 = p2.y := by
  simp only [animateParticles, List.mem_cons, List.mem_append, List.mem_map, List.mem_filterMap,
    Particle.draw, PairCheck.line, Option.map_eq_some', mem_connectionPass_iff, false_or,
    reduceCtorEq, and_false, exists_false]
  constructor
  · rintro ⟨c, ⟨hij, h1, h2, h3⟩, a', ha, hcmd⟩
    simp only [DrawCmd.strokeLine.injEq] at hcmd
    obtain ⟨e1, e2, e3, e4, e5, e6⟩ := hcmd
    refine ⟨c.i, c.j, c.p1, c.p2, hij, h1, h2, ?_, e1.symm, e3.symm, e4.symm, e5.symm, e6.symm⟩
    rw [← h3, ha, e2]
  · rintro ⟨i, j, p1, p2, hij, h1, h2, hc, rfl, rfl, rfl, rfl, rfl⟩
    exact ⟨⟨i, j, p1, p2, some a⟩, ⟨hij, h1, h2, hc.symm⟩, a, rfl, rfl⟩

/-- The computed square is a double. -/
theorem pairSquare_double (p1 p2 : Particle) : round64 (pairSquare p1 p2) = pairSquare p1 p2 := by
  unfold pairSquare
  exact round64_idem _

/-- C4, as amended: the lines a frame strokes are exactly those of the examined
pairs `i < j` for which the inner body draws.  For every pair on which
`Math.sqrt` is correctly rounded, with `d` the distance computed in doubles: a
line is drawn if and only if `d < 100`, which is if and only if the computed
`dx * dx + dy * dy` is below `100²`; when drawn its alpha is
`0.1 * (1 - d / 100)` computed in doubles, positive and at most the double
`0.1`; at `d ≥ 100` no line is drawn; a pair at exact distance `100 + 10⁻¹²` or
more gets no line and a pair at exact distance `100 - 10⁻¹²` or less gets one.
The alpha never increases as `d` grows, and is `0` at `d = 100`. -/
theorem connector_lines (sqrt : ℚ → ℚ) (theme : String) (f : Field) :
    (∀ (col : String) (a x1 y1 x2 y2 : ℚ),
      DrawCmd.strokeLine col a x1 y1 x2 y2 ∈ (animateParticles sqrt theme f).2 ↔
        ∃ (i j : Nat) (p1 p2 : Particle), i < j
          ∧ (animateParticles sqrt theme f).1.particles[i]? = some p1
          ∧ (animateParticles sqrt theme f).1.particles[j]? = some p2
          ∧ connect sqrt p1 p2 = some a
          ∧ col = particleColor theme ∧ x1 = p1.x ∧ y1 = p1.y ∧ x2 = p2.x ∧ y2 = p2.y)
    ∧ (∀ p1 p2 : Particle, IsRoundedSqrt (pairSquare p1 p2) (sqrt (pairSquare p1 p2)) →
        ((connect sqrt p1 p2).isSome ↔ pairDistance sqrt p1 p2 < 100)
        ∧ ((connect sqrt p1 p2).isSome ↔ pairSquare p1 p2 < 100 * 100)
        ∧ (∀ a, connect sqrt p1 p2 = some a →
            a = connectorAlpha (pairDistance sqrt p1 p2) ∧ 0 < a ∧ a ≤ round64 (1 / 10))
        ∧ (100 ≤ pairDistance sqrt p1 p2 → connect sqrt p1 p2 = none)
        ∧ ((100 + 1 / 10 ^ 12 : ℚ) ^ 2 ≤ (p1.x - p2.x) ^ 2 + (p1.y - p2.y) ^ 2 →
            connect sqrt p1 p2 = none)
        ∧ ((p1.x - p2.x) ^ 2 + (p1.y - p2.y) ^ 2 ≤ (100 - 1 / 10 ^ 12 : ℚ) ^ 2 →
            (connect sqrt p1 p2).isSome))
    ∧ (∀ d1 d2 : ℚ, d1 ≤ d2 → connectorAlpha d2 ≤ connectorAlpha d1)
    ∧ connectorAlpha 100 = 0
    ∧ round64 (1 / 10) = 3602879701896397 / 36028797018963968 := by
  refine ⟨strokeLine_mem_iff sqrt theme f, ?_, fun d1 d2 h => connectorAlpha_antitone h,
    connectorAlpha_hundred, round64_tenth⟩
  intro p1 p2 hr
  have hiff : (connect sqrt p1 p2).isSome ↔ pairDistance sqrt p1 p2 < 100 := by
    unfold connect
    by_cases hd : pairDistance sqrt p1 p2 < 100 <;> simp [hd]
  have hsq : pairDistance sqrt p1 p2 < 100 ↔ pairSquare p1 p2 < 100 * 100 :=
    roundedSqrt_lt_hundred (pairSquare_double p1 p2) hr
  refine ⟨hiff, hiff.trans hsq, ?_, ?_, ?_, ?_⟩
  · intro a ha
    unfold connect at ha
    by_cases hd : pairDistance sqrt p1 p2 < 100
    · simp only [hd, if_true, Option.some.injEq] at ha
      subst ha
      exact ⟨rfl, connectorAlpha_pos (double_lt_hundred hr.2.1 hd), connectorAlpha_le hr.1⟩
    · simp [hd] at ha
  · intro hd
    unfold connect
    simp [not_lt.2 hd]
  · intro hfar
    have h1 := pairSquare_ge hfar
    have h2 : ¬ pairDistance sqrt p1 p2 < 100 := fun h => by
      have := hsq.1 h
      linarith
    unfold connect
    simp [h2]
  · intro hnear
    exact (hiff.trans hsq).2 (pairSquare_lt hnear)

theorem round64_three : round64 3 = 3 := by
  rw [round64_eq_pos 1 (3 * 2 ^ 51) (by norm_num) (by norm_num) (by norm_num) (by norm_num)
    (by norm_num)]
  norm_num

theorem round64_four : round64 4 = 4 := by
  rw [round64_eq_pos 2 (2 ^ 52) (by norm_num) (by norm_num) (by norm_num) (by norm_num)
    (by norm_num)]
  norm_num

theorem round64_five : round64 5 = 5 := by
  rw [round64_eq_pos 2 (5 * 2 ^ 50) (by norm_num) (by norm_num) (by norm_num) (by norm_num)
    (by norm_num)]
  norm_num

theorem round64_nine : round64 9 = 9 := by
  rw [round64_eq_pos 3 (9 * 2 ^ 49) (by norm_num) (by norm_num) (by norm_num) (by norm_num)
    (by norm_num)]
  norm_num

theorem round64_sixteen : round64 16 = 16 := by
  rw [round64_eq_pos 4 (2 ^ 52) (by norm_num) (by norm_num) (by norm_num) (by norm_num)
    (by norm_num)]
  norm_num

theorem round64_twentyfive : round64 25 = 25 := by
  rw [round64_eq_pos 4 (25 * 2 ^ 48) (by norm_num) (by norm_num) (by norm_num) (by norm_num)
    (by norm_num)]
  norm_num

/-- The particles at `(0, 0)` and `(3, 4)`: the computed square is 25. -/
theorem pairSquare_three_four :
    pairSquare ⟨0, 0, 1, 0, 0, 1 / 2⟩ ⟨3, 4, 1, 0, 0, 1 / 2⟩ = 25 := by
  unfold pairSquare
  simp only []
  rw [show (0 : ℚ) - 3 = -3 by norm_num, show (0 : ℚ) - 4 = -4 by norm_num, round64_neg,
    round64_neg, round64_three, round64_four, show (-3 : ℚ) * -3 = 9 by norm_num,
    show (-4 : ℚ) * -4 = 16 by norm_num, round64_nine, round64_sixteen,
    show (9 : ℚ) + 16 = 25 by norm_num, round64_twentyfive]

theorem isRoundedSqrt_twentyfive : IsRoundedSqrt 25 5 := by
  refine ⟨by norm_num, round64_five, fun z hz _ => ⟨fun h => ?_, fun h => ?_⟩⟩
  · nlinarith
  · nlinarith

/-- In doubles, `0.1 * (1 - 5 / 100)` is the double `0.095`. -/
theorem connectorAlpha_five : connectorAlpha 5 = 3422735716801577 / 36028797018963968 := by
  unfold connectorAlpha
  have e1 : round64 ((5 : ℚ) / 100) = 3602879701896397 / 72057594037927936 := by
    rw [round64_eq_pos (-5) 7205759403792794 (by norm_num) (by norm_num) (by norm_num)
      (by norm_num) (by norm_num)]
    norm_num
  have e2 : round64 (1 - 3602879701896397 / 72057594037927936)
      = 4278419646001971 / 4503599627370496 := by
    rw [round64_eq_pos (-1) 8556839292003942 (by norm_num) (by norm_num) (by norm_num)
      (by norm_num) (by norm_num)]
    norm_num
  have e3 : round64 (3602879701896397 / 36028797018963968
      * (4278419646001971 / 4503599627370496)) = 3422735716801577 / 36028797018963968 := by
    rw [round64_eq_pos (-4) 6845471433603154 (by norm_num) (by norm_num) (by norm_num)
      (by norm_num) (by norm_num)]
    norm_num
  rw [e1, e2, round64_tenth, e3]

/-- C4, an instance of the amended claim: the particles at `(0, 0)` and
`(3, 4)`, with a root function that returns 5 at 25, are at computed distance
5; the line is drawn, with the alpha `0.1 * (1 - 5 / 100)` of double
arithmetic, the double `0.095`. -/
theorem connector_lines_witness :
    IsRoundedSqrt (pairSquare ⟨0, 0, 1, 0, 0, 1 / 2⟩ ⟨3, 4, 1, 0, 0, 1 / 2⟩)
      ((fun s : ℚ => if s = 25 then (5 : ℚ) else 0)
        (pairSquare ⟨0, 0, 1, 0, 0, 1 / 2⟩ ⟨3, 4, 1, 0, 0, 1 / 2⟩))
    ∧ connect (fun s => if s = 25 then 5 else 0)
        ⟨0, 0, 1, 0, 0, 1 / 2⟩ ⟨3, 4, 1, 0, 0, 1 / 2⟩
      = some (3422735716801577 / 36028797018963968)
    ∧ ((connect (fun s => if s = 25 then 5 else 0)
          ⟨0, 0, 1, 0, 0, 1 / 2⟩ ⟨3, 4, 1, 0, 0, 1 / 2⟩).isSome
        ↔ pairSquare ⟨0, 0, 1, 0, 0, 1 / 2⟩ ⟨3, 4, 1, 0, 0, 1 / 2⟩ < 100 * 100) := by
  have hs : IsRoundedSqrt (pairSquare ⟨0, 0, 1, 0, 0, 1 / 2⟩ ⟨3, 4, 1, 0, 0, 1 / 2⟩)
      ((fun s : ℚ => if s = 25 then (5 : ℚ) else 0)
        (pairSquare ⟨0, 0, 1, 0, 0, 1 / 2⟩ ⟨3, 4, 1, 0, 0, 1 / 2⟩)) := by
    rw [pairSquare_three_four]
    simpa using isRoundedSqrt_twentyfive
  refine ⟨hs, ?_,
    ((connector_lines (fun s => if s = 25 then 5 else 0) "dark"
      ⟨⟨300, 200⟩, [], 0⟩).2.1 _ _ hs).2.1⟩
  unfold connect pairDistance
  rw [pairSquare_three_four]
  simp only [if_true]
  rw [if_pos (by norm_num), connectorAlpha_five]

/-- The double nearest `0.1` and the double nearest `100.1`, as particles on
one horizontal line: the rounded difference of the abscissas is `-100`, and
the computed square is `100²`. -/
theorem pairSquare_tenth_hundred :
    pairSquare ⟨3602879701896397 / 36028797018963968, 0, 1, 0, 0, 1 / 2⟩
      ⟨3521955646092083 / 35184372088832, 0, 1, 0, 0, 1 / 2⟩ = 10000 := by
  unfold pairSquare
  simp only []
  have e1 : round64 (3602879701896397 / 36028797018963968 - 3521955646092083 / 35184372088832)
      = -100 := by
    rw [show (3602879701896397 / 36028797018963968 - 3521955646092083 / 35184372088832 : ℚ)
      = -(3602879701896396595 / 36028797018963968) by norm_num, round64_neg,
      round64_eq_pos 6 7036874417766400 (by norm_num) (by norm_num) (by norm_num)
        (by norm_num) (by norm_num)]
    norm_num
  rw [e1, sub_self, round64_zero, mul_zero, round64_zero,
    show (-100 : ℚ) * -100 = 10000 by norm_num, round64_tenthousand, add_zero,
    round64_tenthousand]

/-- C4, as stated, fails in the arithmetic of the code.  The particles at
`(0.1, 0)` and `(100.1, 0)` (the doubles nearest these) are at an exact
distance below 100, yet the subtraction rounds to `-100`, the computed distance
is 100 and no line is drawn, for every correctly rounded `Math.sqrt`.  And the
alpha is not strictly decreasing: the distances `0` and `100 / 2⁶⁰` give the
same alpha. -/
theorem connector_rounding_counterexample :
    ((3602879701896397 / 36028797018963968 - 3521955646092083 / 35184372088832 : ℚ) ^ 2
        + ((0 : ℚ) - 0) ^ 2 < 100 ^ 2)
    ∧ (∀ sqrt : ℚ → ℚ,
        IsRoundedSqrt
          (pairSquare ⟨3602879701896397 / 36028797018963968, 0, 1, 0, 0, 1 / 2⟩
            ⟨3521955646092083 / 35184372088832, 0, 1, 0, 0, 1 / 2⟩)
          (sqrt (pairSquare ⟨3602879701896397 / 36028797018963968, 0, 1, 0, 0, 1 / 2⟩
            ⟨3521955646092083 / 35184372088832, 0, 1, 0, 0, 1 / 2⟩)) →
        connect sqrt ⟨3602879701896397 / 36028797018963968, 0, 1, 0, 0, 1 / 2⟩
          ⟨3521955646092083 / 35184372088832, 0, 1, 0, 0, 1 / 2⟩ = none)
    ∧ (0 : ℚ) < 100 / 2 ^ 60
    ∧ connectorAlpha 0 = connectorAlpha (100 / 2 ^ 60) := by
  refine ⟨by norm_num, ?_, by norm_num, ?_⟩
  · intro sqrt hr
    have hd := roundedSqrt_lt_hundred (pairSquare_double _ _) hr
    have hn : ¬ pairDistance sqrt ⟨3602879701896397 / 36028797018963968, 0, 1, 0, 0, 1 / 2⟩
        ⟨3521955646092083 / 35184372088832, 0, 1, 0, 0, 1 / 2⟩ < 100 := by
      unfold pairDistance
      rw [hd, pairSquare_tenth_hundred]
      norm_num
    unfold connect
    rw [if_neg hn]
  · rw [connectorAlpha_zero]
    unfold connectorAlpha
    have e1 : round64 ((100 : ℚ) / 2 ^ 60 / 100) = 1 / 2 ^ 60 := by
      rw [round64_eq_pos (-60) (2 ^ 52) (by norm_num) (by norm_num) (by norm_num)
        (by norm_num) (by norm_num)]
      norm_num
    have e2 : round64 (1 - 1 / 2 ^ 60) = 1 := by
      rw [round64_eq_pos (-1) (2 ^ 53) (by norm_num) (by norm_num) (by norm_num)
        (by norm_num) (by norm_num)]
      norm_num
    rw [e1, e2, mul_one, round64_idem]

/-! ### Theme -/

/-- C6, as stated, fails: with `"blue"` stored under `theme`, the attribute
`data-theme` is set to `"blue"`, not to `"dark"` (and not to `"light"`). -/
theorem startup_theme_keeps_other_value :
    (Page.start (some "blue") true 800 2400 800).dataTheme = "blue"
    ∧ (Page.start (some "blue") true 800 2400 800).dataTheme ≠ "dark"
    ∧ (Page.start (some "blue") true 800 2400 800).dataTheme ≠ "light" := by
  simp [Page.start, currentTheme]

/-- C6, as amended: at startup `data-theme` is set to the stored value when
there is one and it is not the empty string, and to `"dark"` otherwise; so an
absent or empty value gives `"dark"`, `"light"` gives `"light"`, `"dark"` gives
`"dark"`, and any other non-empty value is written as it is.  The nav
background set at startup is the light one exactly when the stored value is
`"light"`, the dark one otherwise. -/
theorem startup_theme_resolution (persisted : Option String) (hasHero : Bool)
    (innerHeight scrollHeight clientHeight : ℚ) :
    (persisted = none →
      (Page.start persisted hasHero innerHeight scrollHeight clientHeight).dataTheme = "dark")
    ∧ (persisted = some "" →
      (Page.start persisted hasHero innerHeight scrollHeight clientHeight).dataTheme = "dark")
    ∧ (∀ v, persisted = some v → v ≠ "" →
      (Page.start persisted hasHero innerHeight scrollHeight clientHeight).dataTheme = v)
    ∧ (persisted = some "light" →
      (Page.start persisted hasHero innerHeight scrollHeight clientHeight).dataTheme = "light")
    ∧ (persisted = some "dark" →
      (Page.start persisted hasHero innerHeight scrollHeight clientHeight).dataTheme = "dark")
    ∧ (Page.start persisted hasHero innerHeight scrollHeight clientHeight).navBackground
        = (if persisted = some "light" then "rgba(255, 255, 255, 0.8)"
           else "rgba(10, 10, 10, 0.8)") := by
  refine ⟨?_, ?_, ?_, ?_, ?_, ?_⟩
  · rintro rfl; rfl
  · rintro rfl; rfl
  · rintro v rfl hv; simp [Page.start, currentTheme, hv]
  · rintro rfl; simp [Page.start, currentTheme]
  · rintro rfl; simp [Page.start, currentTheme]
  · cases persisted with
    | none => simp [Page.start, currentTheme, initialNavBackground]
    | some v =>
      by_cases hv : v = ""
      · subst hv; simp [Page.start, currentTheme, initialNavBackground]
      · by_cases hl : v = "light"
        · subst hl; simp [Page.start, currentTheme, initialNavBackground]
        · simp [Page.start, currentTheme, initialNavBackground, hv, hl]

/-- C5, as stated, fails.  On a first visit nothing is stored under `theme`
and `data-theme` is `"dark"`; after two clicks the stored value is `"dark"`,
not absent.  And with `"blue"` stored at startup, `data-theme` starts as
`"blue"` and is `"light"` after two clicks, the particle colour changing from
white to black. -/
theorem toggle_twice_changes_storage :
    (Page.start none true 800 2400 800).storedTheme = none
    ∧ (themeToggleClick [] (themeToggleClick [] (Page.start none true 800 2400 800))).storedTheme
        = some "dark"
    ∧ (Page.start (some "blue") true 800 2400 800).dataTheme = "blue"
    ∧ (themeToggleClick [] (themeToggleClick []
        (Page.start (some "blue") true 800 2400 800))).dataTheme = "light"
    ∧ particleColor (Page.start (some "blue") true 800 2400 800).dataTheme = "255, 255, 255"
    ∧ particleColor (themeToggleClick [] (themeToggleClick []
        (Page.start (some "blue") true 800 2400 800))).dataTheme = "0, 0, 0" := by
  simp [Page.start, currentTheme, themeToggleClick, newTheme, particleColor]

theorem newTheme_newTheme (theme : String) (h : theme = "dark" ∨ theme = "light") :
    newTheme (newTheme theme) = theme := by
  rcases h with rfl | rfl <;> simp [newTheme]

/-- C5, as amended: for every state whose `data-theme` is `"dark"` or
`"light"`, two clicks on the theme toggle bring `data-theme` back to its
value, leave that same value stored under `theme` (so the stored value is the
original one whenever the original one was the value of `data-theme`), and
give the original colour selections: the particle colour, the nav background
for every scroll offset, and the nav background set by the second click. -/
theorem toggle_twice_restores (first second : List Particle) (s : Page)
    (h : s.dataTheme = "dark" ∨ s.dataTheme = "light") :
    (themeToggleClick second (themeToggleClick first s)).dataTheme = s.dataTheme
    ∧ (themeToggleClick second (themeToggleClick first s)).storedTheme = some s.dataTheme
    ∧ (s.storedTheme = some s.dataTheme →
        (themeToggleClick second (themeToggleClick first s)).storedTheme = s.storedTheme)
    ∧ particleColor (themeToggleClick second (themeToggleClick first s)).dataTheme
        = particleColor s.dataTheme
    ∧ (∀ scrolled : ℚ,
        navBackgroundFor (themeToggleClick second (themeToggleClick first s)).dataTheme scrolled
          = navBackgroundFor s.dataTheme scrolled)
    ∧ (themeToggleClick second (themeToggleClick first s)).navBackground
        = navBackgroundFor s.dataTheme s.pageYOffset := by
  have h1 : (themeToggleClick second (themeToggleClick first s)).dataTheme = s.dataTheme := by
    simp only [themeToggleClick]
    exact newTheme_newTheme _ h
  have h2 : (themeToggleClick second (themeToggleClick first s)).storedTheme
      = some s.dataTheme := by
    simp only [themeToggleClick]
    rw [newTheme_newTheme _ h]
  refine ⟨h1, h2, fun hs => by rw [h2, hs], by rw [h1], fun y => by rw [h1], ?_⟩
  simp only [themeToggleClick]
  rw [newTheme_newTheme _ h]

/-- C5, an instance: a page that started with `"light"` stored has `"light"` as
`data-theme` and as stored value again after two clicks. -/
theorem toggle_twice_restores_witness :
    ((Page.start (some "light") true 800 2400 800).dataTheme = "dark"
      ∨ (Page.start (some "light") true 800 2400 800).dataTheme = "light")
    ∧ (themeToggleClick [] (themeToggleClick []
        (Page.start (some "light") true 800 2400 800))).dataTheme = "light"
    ∧ (themeToggleClick [] (themeToggleClick []
        (Page.start (some "light") true 800 2400 800))).storedTheme = some "light" :=
  ⟨Or.inr (by simp [Page.start, currentTheme]),
   (toggle_twice_restores [] [] (Page.start (some "light") true 800 2400 800)
      (Or.inr (by simp [Page.start, currentTheme]))).1.trans (by simp [Page.start, currentTheme]),
   (toggle_twice_restores [] [] (Page.start (some "light") true 800 2400 800)
      (Or.inr (by simp [Page.start, currentTheme]))).2.1.trans
        (by simp [Page.start, currentTheme])⟩

/-! ### Progress bar and scroll throttling -/

/-- C9, as stated, fails at `s = T = 0`: on a page that cannot scroll
(`scrollHeight = clientHeight = 800`) the listener divides `0` by `0`, and the
target `scaleX` is not a number, so it is not `1`. -/
theorem progress_scale_zero_height :
    (0 : ℚ) ≤ 0 ∧ (0 : ℚ) ≤ 800 - 800 ∧ progressScale 0 800 800 = none
    ∧ progressScale 0 800 800 ≠ some 1 :=
  ⟨le_refl 0, by norm_num, by simp [progressScale, jsDiv], by simp [progressScale, jsDiv]⟩

/-- C9, as amended: for every scroll offset `s` and total scrollable height
`T = scrollHeight - clientHeight` with `0 ≤ s ≤ T` and `0 < T`, the target
`scaleX` the progress listener passes to `anime` is `s / T`, a fraction in
`[0, 1]`, and it is exactly `1` when `s = T`. -/
theorem progress_scale_fraction (s : Page)
    (hT : 0 < s.scrollHeight - s.clientHeight) (h0 : 0 ≤ s.pageYOffset)
    (hs : s.pageYOffset ≤ s.scrollHeight - s.clientHeight) :
    progressScale s.pageYOffset s.scrollHeight s.clientHeight
        = some (s.pageYOffset / (s.scrollHeight - s.clientHeight))
    ∧ 0 ≤ s.pageYOffset / (s.scrollHeight - s.clientHeight)
    ∧ s.pageYOffset / (s.scrollHeight - s.clientHeight) ≤ 1
    ∧ (s.pageYOffset = s.scrollHeight - s.clientHeight →
        progressScale s.pageYOffset s.scrollHeight s.clientHeight = some 1)
    ∧ (progressScroll s).animeCalls = s.animeCalls ++
        [{ targets := Target.selector ".progress-bar",
           props := [("scaleX", [some (s.pageYOffset / (s.scrollHeight - s.clientHeight))])],
           duration := 100, delay := Delay.fixed (some 0), easing := "linear" }] := by
  have hne : s.scrollHeight - s.clientHeight ≠ 0 := ne_of_gt hT
  have e : progressScale s.pageYOffset s.scrollHeight s.clientHeight
      = some (s.pageYOffset / (s.scrollHeight - s.clientHeight)) := by
    simp [progressScale, jsDiv, hne]
  refine ⟨e, div_nonneg h0 hT.le, (div_le_one hT).2 hs, ?_, ?_⟩
  · intro h
    rw [e, h, div_self hne]
  · simp only [progressScroll, e]

/-- C9, an instance: at the bottom of a page of height 2400 in a viewport of
800, the offset is 1600 and the target scale is exactly 1. -/
theorem progress_scale_fraction_witness :
    (0 : ℚ) < (2400 : ℚ) - 800 ∧ (0 : ℚ) ≤ 1600 ∧ (1600 : ℚ) ≤ 2400 - 800
    ∧ progressScale 1600 2400 800 = some 1 :=
  ⟨by norm_num, by norm_num, by norm_num,
   (progress_scale_fraction { Page.start none true 800 2400 800 with pageYOffset := 1600 }
      (by norm_num [Page.start]) (by norm_num [Page.start]) (by norm_num [Page.start])).2.2.2.1
      (by norm_num [Page.start])⟩

theorem start_throttled (persisted : Option String) (hasHero : Bool)
    (innerHeight scrollHeight clientHeight : ℚ) :
    (Page.start persisted hasHero innerHeight scrollHeight clientHeight).throttled :=
  Or.inr ⟨rfl, rfl⟩

/-- A scroll event keeps the flag and the queue in step, runs no recompute and
makes one call on the progress bar. -/
theorem scroll_step (s : Page) (offset : ℚ) (h : s.throttled) :
    (pageStep s (PageEvent.scroll offset)).throttled
    ∧ (pageStep s (PageEvent.scroll offset)).recomputes = s.recomputes
    ∧ (progressCalls (pageStep s (PageEvent.scroll offset))).length
        = (progressCalls s).length + 1 := by
  rcases h with ⟨ht, hq⟩ | ⟨ht, hq⟩
  · simp [pageStep, parallaxScroll, progressScroll, Page.throttled, progressCalls, ht, hq]
  · simp [pageStep, parallaxScroll, progressScroll, Page.throttled, progressCalls, ht, hq]

theorem refresh_step (s : Page) (h : s.throttled) :
    (pageStep s PageEvent.refresh).throttled
    ∧ (pageStep s PageEvent.refresh).recomputes ≤ s.recomputes + 1
    ∧ (pageStep s PageEvent.refresh).recomputes = s.recomputes + s.frameQueue
    ∧ progressCalls (pageStep s PageEvent.refresh) = progressCalls s := by
  rcases h with ⟨ht, hq⟩ | ⟨ht, hq⟩
  · simp [pageStep, frame, recompute, Page.throttled, progressCalls, hq]
  · simp [pageStep, frame, Page.throttled, progressCalls, ht, hq]

theorem click_step (s : Page) (particles : List Particle) (h : s.throttled) :
    (pageStep s (PageEvent.click particles)).throttled
    ∧ (pageStep s (PageEvent.click particles)).recomputes = s.recomputes
    ∧ progressCalls (pageStep s (PageEvent.click particles)) = progressCalls s := by
  refine ⟨?_, rfl, ?_⟩
  · rcases h with ⟨ht, hq⟩ | ⟨ht, hq⟩
    · exact Or.inl ⟨ht, hq⟩
    · exact Or.inr ⟨ht, hq⟩
  · by_cases hp : particles.length > 0 <;>
      simp [pageStep, themeToggleClick, progressCalls, hp]

/-- Along any sequence of events from a state where the flag and the queue are
in step, they stay in step, the recompute runs at most once for each refresh,
and the progress bar gets one call for each scroll event. -/
theorem pageRun_throttled (events : List PageEvent) (s : Page) (h : s.throttled) :
    (pageRun s events).throttled
    ∧ (pageRun s events).recomputes ≤ s.recomputes + refreshCount events
    ∧ (progressCalls (pageRun s events)).length
        = (progressCalls s).length + scrollCount events := by
  induction events generalizing s with
  | nil => exact ⟨h, by simp [pageRun, refreshCount], by simp [pageRun, scrollCount]⟩
  | cons e rest ih =>
    have hrun : pageRun s (e :: rest) = pageRun (pageStep s e) rest := rfl
    rw [hrun]
    cases e with
    | scroll offset =>
      obtain ⟨h1, h2, h3⟩ := scroll_step s offset h
      obtain ⟨i1, i2, i3⟩ := ih _ h1
      refine ⟨i1, ?_, ?_⟩
      · rw [h2] at i2
        simpa [refreshCount] using i2
      · rw [i3, h3]
        simp [scrollCount, List.countP_cons]
        omega
    | refresh =>
      obtain ⟨h1, h2, -, h4⟩ := refresh_step s h
      obtain ⟨i1, i2, i3⟩ := ih _ h1
      refine ⟨i1, ?_, ?_⟩
      · have : refreshCount (PageEvent.refresh :: rest) = refreshCount rest + 1 := by
          simp [refreshCount, List.countP_cons]
        omega
      · rw [i3, h4]
        simp [scrollCount, List.countP_cons]
    | click particles =>
      obtain ⟨h1, h2, h3⟩ := click_step s particles h
      obtain ⟨i1, i2, i3⟩ := ih _ h1
      refine ⟨i1, ?_, ?_⟩
      · rw [h2] at i2
        simpa [refreshCount] using i2
      · rw [i3, h3]
        simp [scrollCount, List.countP_cons]

/-- C8, as stated, fails for the progress bar: two `scroll` events with no
display refresh between them make the progress listener compute the scale and
call `anime` twice; with one refresh after them it has still run twice for
that one refresh. -/
theorem progress_not_throttled :
    (progressCalls (pageRun (Page.start none true 800 2400 800)
        [PageEvent.scroll 10, PageEvent.scroll 20])).length = 2
    ∧ refreshCount [PageEvent.scroll 10, PageEvent.scroll 20] = 0
    ∧ (progressCalls (pageRun (Page.start none true 800 2400 800)
        [PageEvent.scroll 10, PageEvent.scroll 20, PageEvent.refresh])).length = 2
    ∧ refreshCount [PageEvent.scroll 10, PageEvent.scroll 20, PageEvent.refresh] = 1 := by
  simp [pageRun, pageStep, progressCalls, progressScroll, parallaxScroll, frame, recompute,
    Page.start, refreshCount]

/-- C8, as amended: for every sequence of scroll events, display refreshes and
theme clicks after the start of the script, at most one recompute of the nav
translucency and the parallax offset is queued, the pending flag `ticking` is
set exactly when one is queued, a display refresh runs the recompute at most
once, and the recompute has run at most as many times as there were
refreshes, however many scroll events came; the progress-bar scale is not
throttled: it is computed once for each scroll event. -/
theorem parallax_throttled (persisted : Option String) (hasHero : Bool)
    (innerHeight scrollHeight clientHeight : ℚ) (events : List PageEvent) :
    (pageRun (Page.start persisted hasHero innerHeight scrollHeight clientHeight)
        events).frameQueue ≤ 1
    ∧ ((pageRun (Page.start persisted hasHero innerHeight scrollHeight clientHeight)
        events).ticking = true
      ↔ (pageRun (Page.start persisted hasHero innerHeight scrollHeight clientHeight)
        events).frameQueue = 1)
    ∧ (pageRun (Page.start persisted hasHero innerHeight scrollHeight clientHeight)
        (events ++ [PageEvent.refresh])).recomputes
      ≤ (pageRun (Page.start persisted hasHero innerHeight scrollHeight clientHeight)
        events).recomputes + 1
    ∧ (pageRun (Page.start persisted hasHero innerHeight scrollHeight clientHeight)
        events).recomputes ≤ refreshCount events
    ∧ (progressCalls (pageRun (Page.start persisted hasHero innerHeight scrollHeight
        clientHeight) events)).length = scrollCount events := by
  have hs := start_throttled persisted hasHero innerHeight scrollHeight clientHeight
  obtain ⟨h1, h2, h3⟩ := pageRun_throttled events _ hs
  have hq : (pageRun (Page.start persisted hasHero innerHeight scrollHeight clientHeight)
      events).frameQueue ≤ 1 := by
    rcases h1 with ⟨-, hq⟩ | ⟨-, hq⟩ <;> omega
  refine ⟨hq, ?_, ?_, ?_, ?_⟩
  · rcases h1 with ⟨ht, hq⟩ | ⟨ht, hq⟩ <;> simp [ht, hq]
  · have : pageRun (Page.start persisted hasHero innerHeight scrollHeight clientHeight)
        (events ++ [PageEvent.refresh])
        = pageStep (pageRun (Page.start persisted hasHero innerHeight scrollHeight clientHeight)
            events) PageEvent.refresh := by
      simp [pageRun, List.foldl_append]
    rw [this]
    exact (refresh_step _ h1).2.1
  · simpa [Page.start] using h2
  · simpa [Page.start, progressCalls] using h3

/-! ### Reveal trigger -/

theorem start_oneShot (regions : List Region) : (Observer.start regions).oneShot :=
  ⟨List.nodup_nil, fun _ h => absurd h (List.not_mem_nil _), rfl⟩

theorem handleEntry_oneShot (o : Observer) (entry : Entry) (h : o.oneShot)
    (hobs : entry.target ∈ o.observed) : (handleEntry o entry).oneShot := by
  obtain ⟨hnd, hout, hcalls⟩ := h
  unfold handleEntry
  by_cases hi : entry.isIntersecting = true
  · simp only [hi, if_true, Observer.unobserve]
    refine ⟨?_, ?_, ?_⟩
    · rw [List.nodup_append]
      refine ⟨hnd, List.nodup_singleton _, ?_⟩
      intro r hr hr2
      rw [List.mem_singleton] at hr2
      subst hr2
      exact hout _ hr hobs
    · intro r hr hmem
      rw [List.mem_filter] at hmem
      rcases List.mem_append.1 hr with hr | hr
      · exact hout r hr hmem.1
      · rw [List.mem_singleton] at hr
        simp [hr] at hmem
    · simp [hcalls, List.flatMap_append]
  · simp only [hi]
    exact ⟨hnd, hout, hcalls⟩

theorem observerCallback_oneShot (entries : List Entry) (o : Observer) (h : o.oneShot)
    (hrep : Reported o entries) : (observerCallback o entries).oneShot := by
  induction entries generalizing o with
  | nil => exact h
  | cons entry rest ih =>
    obtain ⟨hobs, hrest⟩ := hrep
    exact ih _ (handleEntry_oneShot o entry h hobs) hrest

theorem observerRun_oneShot (batches : List (List Entry)) (o : Observer) (h : o.oneShot)
    (hrep : ReportedAll o batches) : (observerRun o batches).oneShot := by
  induction batches generalizing o with
  | nil => exact h
  | cons batch rest ih =>
    obtain ⟨hb, hrest⟩ := hrep
    exact ih _ (observerCallback_oneShot batch o h hb) hrest

theorem observerStep_oneShot (o : Observer) (entry : Entry) (h : o.oneShot) :
    (observerStep o entry).oneShot := by
  unfold observerStep
  by_cases hobs : entry.target ∈ o.observed
  · simp only [hobs, if_true]
    exact observerCallback_oneShot [entry] o h ⟨hobs, trivial⟩
  · simp only [hobs, if_false]
    exact h

theorem observerTrace_oneShot (changes : List Entry) (o : Observer) (h : o.oneShot) :
    (observerTrace o changes).oneShot := by
  induction changes generalizing o with
  | nil => exact h
  | cons entry rest ih => exact ih _ (observerStep_oneShot o entry h)

/-- C7: with the observer as a state machine over the set of observed
elements, for every set of tracked regions and every sequence of visibility
changes (intersecting or not, in any order and repetition) the entrance block
runs at most once for each region, no revealed region is observed any more, and
the calls of `anime` made are those of one entrance block for each revealed
region.  The same holds for every sequence of callbacks on batches of entries
in which each entry is about an element still observed when the callback comes
to it. -/
theorem reveal_at_most_once (regions : List Region) :
    (∀ (changes : List Entry) (r : Region),
      (observerTrace (Observer.start regions) changes).revealed.countP
        (fun q => decide (q = r)) ≤ 1)
    ∧ (∀ (changes : List Entry),
      (∀ r ∈ (observerTrace (Observer.start regions) changes).revealed,
        r ∉ (observerTrace (Observer.start regions) changes).observed)
      ∧ (observerTrace (Observer.start regions) changes).animeCalls
        = (observerTrace (Observer.start regions) changes).revealed.flatMap entranceCalls)
    ∧ (∀ (batches : List (List Entry)), ReportedAll (Observer.start regions) batches →
      ∀ r : Region,
        (observerRun (Observer.start regions) batches).revealed.countP
          (fun q => decide (q = r)) ≤ 1) := by
  refine ⟨fun changes r => ?_, fun changes => ?_, fun batches hrep r => ?_⟩
  · obtain ⟨hnd, -, -⟩ := observerTrace_oneShot changes _ (start_oneShot regions)
    rw [countP_eq_of_nodup _ _ hnd]
    split_ifs <;> omega
  · obtain ⟨-, hout, hcalls⟩ := observerTrace_oneShot changes _ (start_oneShot regions)
    exact ⟨hout, hcalls⟩
  · obtain ⟨hnd, -, -⟩ := observerRun_oneShot batches _ (start_oneShot regions) hrep
    rw [countP_eq_of_nodup _ _ hnd]
    split_ifs <;> omega

/-- C7, the scenario of the specification: a section header that starts out of
view, is scrolled into view, out again and in again is revealed exactly once,
with the one call of `anime` of its entrance block, and is observed no more. -/
theorem reveal_scenario :
    (observerTrace (Observer.start [⟨0, true, false, false, false, none⟩])
      [⟨⟨0, true, false, false, false, none⟩, false⟩,
       ⟨⟨0, true, false, false, false, none⟩, true⟩,
       ⟨⟨0, true, false, false, false, none⟩, false⟩,
       ⟨⟨0, true, false, false, false, none⟩, true⟩]).revealed
      = [⟨0, true, false, false, false, none⟩]
    ∧ (observerTrace (Observer.start [⟨0, true, false, false, false, none⟩])
      [⟨⟨0, true, false, false, false, none⟩, false⟩,
       ⟨⟨0, true, false, false, false, none⟩, true⟩,
       ⟨⟨0, true, false, false, false, none⟩, false⟩,
       ⟨⟨0, true, false, false, false, none⟩, true⟩]).observed = []
    ∧ (observerTrace (Observer.start [⟨0, true, false, false, false, none⟩])
      [⟨⟨0, true, false, false, false, none⟩, false⟩,
       ⟨⟨0, true, false, false, false, none⟩, true⟩,
       ⟨⟨0, true, false, false, false, none⟩, false⟩,
       ⟨⟨0, true, false, false, false, none⟩, true⟩]).revealed.countP
        (fun q => decide (q = ⟨0, true, false, false, false, none⟩)) ≤ 1 :=
  ⟨by decide, by decide,
   (reveal_at_most_once [⟨0, true, false, false, false, none⟩]).1 _ _⟩

/-! ### Further properties -/

/-- The method `update()` changes the position only: after any number of steps
the velocity, the size and the opacity are the ones the particle had. -/
theorem update_keeps_velocity (canvas : Canvas) (p : Particle) (n : Nat) :
    ((Particle.update canvas)^[n] p).speedX = p.speedX
    ∧ ((Particle.update canvas)^[n] p).speedY = p.speedY
    ∧ ((Particle.update canvas)^[n] p).size = p.size
    ∧ ((Particle.update canvas)^[n] p).opacity = p.opacity := by
  induction n with
  | zero => simp
  | succ k ih =>
    rw [Function.iterate_succ_apply']
    obtain ⟨h1, h2, h3, h4⟩ := ih
    exact ⟨h1, h2, h3, h4⟩

/-- With every draw of `Math.random` in `[0, 1)`, a new particle has its
position in the closed box of the canvas (below `W` and `H` where these are
positive), its velocity components in `[-0.25, 0.25)`, its size in `[0.5, 2.5)`
and its opacity in `[0.2, 0.7)`. -/
theorem new_particle_ranges (canvas : Canvas) (rnd : Nat → ℚ) (k : Nat)
    (h : ∀ i, 0 ≤ rnd i ∧ rnd i < 1) :
    (Particle.new canvas rnd k).insideClosed canvas
    ∧ (0 < canvas.width → (Particle.new canvas rnd k).x < (canvas.width : ℚ))
    ∧ (0 < canvas.height → (Particle.new canvas rnd k).y < (canvas.height : ℚ))
    ∧ (Particle.new canvas rnd k).slow
    ∧ (Particle.new canvas rnd k).speedX < 1 / 4
    ∧ (Particle.new canvas rnd k).speedY < 1 / 4
    ∧ 1 / 2 ≤ (Particle.new canvas rnd k).size ∧ (Particle.new canvas rnd k).size < 5 / 2
    ∧ 1 / 5 ≤ (Particle.new canvas rnd k).opacity
    ∧ (Particle.new canvas rnd k).opacity < 7 / 10 := by
  have hW : (0 : ℚ) ≤ (canvas.width : ℚ) := Nat.cast_nonneg _
  have hH : (0 : ℚ) ≤ (canvas.height : ℚ) := Nat.cast_nonneg _
  obtain ⟨a0, a1⟩ := h k
  obtain ⟨b0, b1⟩ := h (k + 1)
  obtain ⟨c0, c1⟩ := h (k + 2)
  obtain ⟨d0, d1⟩ := h (k + 3)
  obtain ⟨e0, e1⟩ := h (k + 4)
  obtain ⟨f0, f1⟩ := h (k + 5)
  simp only [Particle.new, Particle.insideClosed, Particle.slow]
  refine ⟨⟨mul_nonneg a0 hW, ?_, mul_nonneg b0 hH, ?_⟩, ?_, ?_, ⟨?_, ?_, ?_, ?_⟩, ?_, ?_, ?_, ?_,
    ?_, ?_⟩
  · nlinarith
  · nlinarith
  · intro hpos
    have : (0 : ℚ) < (canvas.width : ℚ) := Nat.cast_pos.2 hpos
    nlinarith
  · intro hpos
    have : (0 : ℚ) < (canvas.height : ℚ) := Nat.cast_pos.2 hpos
    nlinarith
  all_goals linarith

/-- An instance: on a 300 by 200 canvas with every draw equal to `0.5`, the new
particle is at the centre, at rest. -/
theorem new_particle_ranges_witness :
    (∀ i : Nat, (0 : ℚ) ≤ (fun _ => (1 / 2 : ℚ)) i ∧ (fun _ => (1 / 2 : ℚ)) i < 1)
    ∧ (Particle.new ⟨300, 200⟩ (fun _ => 1 / 2) 0).slow :=
  ⟨fun _ => by norm_num,
   (new_particle_ranges ⟨300, 200⟩ (fun _ => 1 / 2) 0 (fun _ => by norm_num)).2.2.2.1⟩

/-- The callback has no check of its own that an element is still observed:
on a batch that names the same element twice as intersecting, it runs the
entrance block twice. -/
theorem callback_repeats_on_repeated_entry :
    (observerCallback (Observer.start [⟨0, true, false, false, false, none⟩])
      [⟨⟨0, true, false, false, false, none⟩, true⟩,
       ⟨⟨0, true, false, false, false, none⟩, true⟩]).revealed
      = [⟨0, true, false, false, false, none⟩, ⟨0, true, false, false, false, none⟩] := by
  decide

/-- The recompute sets the nav background from the theme and the offset
(translucency `0.95` above 100, `0.8` otherwise); with a hero element and an
offset in `[0, innerHeight)` it sets the hero offset to half the scroll offset
and the hero opacity to `1 - 0.8 * offset / innerHeight`; at or beyond one
viewport height it leaves the hero style as it was. -/
theorem recompute_styles (s : Page) :
    (recompute s).navBackground = navBackgroundFor s.dataTheme s.pageYOffset
    ∧ (s.hasHero = true → 0 ≤ s.pageYOffset → s.pageYOffset < s.innerHeight →
        (recompute s).heroStyle
          = some (s.pageYOffset / 2, some (1 - s.pageYOffset / s.innerHeight * (4 / 5))))
    ∧ (s.innerHeight ≤ s.pageYOffset → (recompute s).heroStyle = s.heroStyle) := by
  refine ⟨rfl, ?_, ?_⟩
  · intro hh h0 hlt
    have hne : s.innerHeight ≠ 0 := by
      intro h
      rw [h] at hlt
      linarith
    simp only [recompute, hh, hlt, decide_True, Bool.and_self, if_true, jsDiv, hne, if_false,
      Option.map_some']
    congr 2
    ring
  · intro hge
    have : ¬ s.pageYOffset < s.innerHeight := not_lt.2 hge
    simp [recompute, this]

end Portfolio
